import Mathlib

/-!
Verification of the sanitizer-report extractor (`src/report/sanitizer.rs`).

The program is embedded shallowly: strings are `List Char` (positions are
character offsets; all relevant inputs are ASCII, where these coincide with
Rust's byte offsets), the two `lazy_static` regexes are transcribed into a
small regex AST `RE`, and a leftmost-first backtracking matcher `matQ`
implements the match semantics of the `regex` crate for the constructs these
two patterns use.  Rust panics (out-of-bounds slicing, `unwrap` of a failed
`u64::from_str_radix`) are modeled as `Except.error`.
-/

/-- Unicode `White_Space` test: the character set matched by the regex class
`\s` and trimmed by Rust's `str::trim_end`. -/
def wsC (c : Char) : Bool :=
  let n := c.toNat
  (9 ≤ n && n ≤ 13) || n = 32 || n = 0x85 || n = 0xA0 || n = 0x1680 ||
  (0x2000 ≤ n && n ≤ 0x200A) || n = 0x2028 || n = 0x2029 || n = 0x202F ||
  n = 0x205F || n = 0x3000

/-- The regex character class `[=]` (also the `=` of `=+`). -/
def isEq (c : Char) : Bool := c == '='

/-- The regex character class `[0-9]`. -/
def digitC (c : Char) : Bool := 48 ≤ c.toNat && c.toNat ≤ 57

/-- The regex character class `[-_A-Za-z0-9]`. -/
def wordC (c : Char) : Bool :=
  c == '-' || c == '_' || digitC c ||
  (65 ≤ c.toNat && c.toNat ≤ 90) || (97 ≤ c.toNat && c.toNat ≤ 122)

/-- The regex character class `[a-fA-F0-9]`. -/
def hexC (c : Char) : Bool :=
  digitC c || (97 ≤ c.toNat && c.toNat ≤ 102) || (65 ≤ c.toNat && c.toNat ≤ 70)

/-- The regex character class `[\r\n]`. -/
def crlfC (c : Char) : Bool := c == '\r' || c == '\n'

/-- The regex character class `[^\r\n]`. -/
def notCrlfC (c : Char) : Bool := !(crlfC c)

/-- Regex AST, covering exactly the constructs used by `R_ASAN_HEADLINE` and
`R_ASAN_FIRST_FRAME`: literals, character classes, greedy `*`/`+` over a
class, greedy `?`, concatenation and (numbered) capture groups. -/
inductive RE where
  | lit (l : List Char)
  | cls (f : Char → Bool)
  | star (f : Char → Bool)
  | plus (f : Char → Bool)
  | opt (r : RE)
  | seq (r1 r2 : RE)
  | grp (i : Nat) (r : RE)

/-- Capture environment: `(group index, start, end)` triples, most recent
first. -/
abbrev Caps := List (Nat × Nat × Nat)

/-- Look up the span recorded for capture group `i`. -/
def capsLookup (i : Nat) : Caps → Option (Nat × Nat)
  | [] => none
  | (j, ab) :: c => if j = i then some ab else capsLookup i c

/-- Boolean prefix test (`List.isPrefixOf` specialized to `Char`, kept local
so that its defining equations are directly available). -/
def beginsWith : List Char → List Char → Bool
  | [], _ => true
  | _ :: _, [] => false
  | a :: pa, b :: sb => a == b && beginsWith pa sb

/-- Greedy backtracking for a class repetition: try consuming `n` characters,
then `n-1`, ... down to `0`, handing the remainder to the continuation `k`. -/
def tryRun {α} (s : List Char) (p : Nat) (c : Caps)
    (k : List Char → Nat → Caps → Option α) : Nat → Option α
  | 0 => k s p c
  | n + 1 =>
    match k (s.drop (n + 1)) (p + (n + 1)) c with
    | some v => some v
    | none => tryRun s p c k n

/-- Leftmost-first backtracking matcher (the match semantics of the Rust
`regex` crate restricted to the constructs of `RE`): `s` is the remaining
input, `p` the absolute position of `s`, `c` the captures so far, and `k` the
continuation for the rest of the pattern. -/
def matQ {α} : RE → List Char → Nat → Caps →
    (List Char → Nat → Caps → Option α) → Option α
  | .lit l, s, p, c, k =>
    if beginsWith l s then k (s.drop l.length) (p + l.length) c else none
  | .cls f, s, p, c, k =>
    match s with
    | [] => none
    | ch :: t => if f ch then k t (p + 1) c else none
  | .star f, s, p, c, k => tryRun s p c k (s.takeWhile f).length
  | .plus f, s, p, c, k =>
    match s with
    | [] => none
    | ch :: t =>
      if f ch then tryRun t (p + 1) c k (t.takeWhile f).length else none
  | .opt r, s, p, c, k =>
    match matQ r s p c k with
    | some v => some v
    | none => k s p c
  | .seq r1 r2, s, p, c, k =>
    matQ r1 s p c (fun s' p' c' => matQ r2 s' p' c' k)
  | .grp i r, s, p, c, k =>
    matQ r s p c (fun s' p' c' => k s' p' ((i, p, p') :: c'))

/-- A single overall match: span `[start, stop)` plus its capture groups. -/
structure RMatch where
  start : Nat
  stop : Nat
  caps : Caps
deriving DecidableEq, Repr

/-- Attempt an anchored match of `re` at position `q` of `input`; returns the
end position and captures of the leftmost-first match starting there. -/
def matchAt (re : RE) (input : List Char) (q : Nat) : Option (Nat × Caps) :=
  matQ re (input.drop q) q [] (fun _ p' c' => some (p', c'))

/-- Scan positions `q, q+1, ...` (at most `fuel` of them) for the first one
where `re` matches: this yields the leftmost match at or after `q`. -/
def findFromGo (re : RE) (input : List Char) : Nat → Nat → Option RMatch
  | _, 0 => none
  | q, fuel + 1 =>
    match matchAt re input q with
    | some (e, c) => some ⟨q, e, c⟩
    | none => findFromGo re input (q + 1) fuel

/-- Leftmost match of `re` in `input` at or after position `q` (the search of
`Regex::captures` / one step of `captures_iter`). -/
def findFrom (re : RE) (input : List Char) (q : Nat) : Option RMatch :=
  findFromGo re input q (input.length + 1 - q)

/-- Successive non-overlapping matches from position `p` on, as produced by
`captures_iter`; `fuel` bounds the number of iterations (it is always called
with enough fuel, since every iteration advances the position). -/
def capsListGo (re : RE) (input : List Char) : Nat → Nat → List RMatch
  | 0, _ => []
  | fuel + 1, p =>
    match findFrom re input p with
    | none => []
    | some m =>
      m :: capsListGo re input fuel (if m.start < m.stop then m.stop else m.start + 1)

/-- All matches of `re` in `input`, in document order (`captures_iter`). -/
def capsList (re : RE) (input : List Char) : List RMatch :=
  capsListGo re input (input.length + 2) 0

/-- Transcription of `R_ASAN_HEADLINE` (verbose mode; groups numbered as in
the Rust pattern: 1 = leading separator line, 2 = `pid`, 3 = `attempting`,
4 = `reason`, 5 = `operation`):
`([=]+[\r\n]+)?(?P<pid>=+[0-9]+=+)\s*ERROR:\s*AddressSanitizer:\s*(attempting\s)?(?P<reason>[-_A-Za-z0-9]+)[^\r\n]*[\r\n]+(?P<operation>[-_A-Za-z0-9]+)?` -/
def R_ASAN_HEADLINE : RE :=
  .seq (.opt (.grp 1 (.seq (.plus isEq) (.plus crlfC))))
  (.seq (.grp 2 (.seq (.plus isEq) (.seq (.plus digitC) (.plus isEq))))
  (.seq (.star wsC)
  (.seq (.lit ("ERROR:".toList))
  (.seq (.star wsC)
  (.seq (.lit ("AddressSanitizer:".toList))
  (.seq (.star wsC)
  (.seq (.opt (.grp 3 (.seq (.lit ("attempting".toList)) (.cls wsC))))
  (.seq (.grp 4 (.plus wordC))
  (.seq (.star notCrlfC)
  (.seq (.plus crlfC)
  (.opt (.grp 5 (.plus wordC)))))))))))))

/-- Transcription of `R_ASAN_FIRST_FRAME` (group 1 = `frame`):
`#0\s+(?P<frame>0x[a-fA-F0-9]+)` -/
def R_ASAN_FIRST_FRAME : RE :=
  .seq (.lit ("#0".toList))
  (.seq (.plus wsC)
  (.grp 1 (.seq (.lit ("0x".toList)) (.plus hexC))))

/-- The last of the successive headline matches:
`R_ASAN_HEADLINE.captures_iter(input).last()` (line 31 of the source). -/
def capturesLast (input : List Char) : Option RMatch :=
  (capsList R_ASAN_HEADLINE input).getLast?

/-- `&input[a..b]` (for `a ≤ b ≤ input.length`; the bounds checks live at the
call sites, mirroring the panics of Rust slicing). -/
def strSlice (input : List Char) (a b : Nat) : List Char :=
  (input.take b).drop a

/-- Strip one trailing carriage return, as `str::lines` does per line. -/
def stripCR (l : List Char) : List Char :=
  if l.getLast? = some '\r' then l.dropLast else l

/-- Structural worker for `rustLines`: each step consumes at least one
character, so `fuel = s.length` always suffices. -/
def rustLinesGo : Nat → List Char → List (List Char)
  | _, [] => []
  | 0, _ :: _ => []
  | fuel + 1, ch :: t =>
    let l1 := (ch :: t).takeWhile (fun c => c ≠ '\n')
    stripCR l1 :: rustLinesGo fuel ((ch :: t).drop (l1.length + 1))

/-- Rust `str::lines`: split at `'\n'`, strip one trailing `'\r'` from each
line, final line terminator optional. -/
def rustLines (s : List Char) : List (List Char) :=
  rustLinesGo s.length s

/-- Rust `str::find` for a substring pattern: index of the first occurrence. -/
def substrFind (s pat : List Char) : Option Nat :=
  if beginsWith pat s then some 0
  else
    match s with
    | [] => none
    | _ :: t => (substrFind t pat).map (· + 1)

/-- Line 42 of the source: the length sum
`lines().take_while(|x| x.find(marker).is_some()).map(|x| x.len()+1).sum()`. -/
def lineSum (marker s : List Char) : Nat :=
  (((rustLines s).takeWhile (fun x => (substrFind x marker).isSome)).map
    (fun x => x.length + 1)).sum

/-- Rust `str::trim_end`: remove trailing Unicode whitespace. -/
def trimEnd (s : List Char) : List Char :=
  (s.reverse.dropWhile wsC).reverse

/-- Value of a hexadecimal digit (the digits are guaranteed by the regex). -/
def hexDigitVal (c : Char) : Nat :=
  if digitC c then c.toNat - 48
  else if 97 ≤ c.toNat && c.toNat ≤ 102 then c.toNat - 87
  else if 65 ≤ c.toNat && c.toNat ≤ 70 then c.toNat - 55
  else 0

/-- `u64::from_str_radix(ds, 16)`: `none` on an empty string, a non-hex digit
or a value exceeding `u64::MAX` (each of which makes the `.unwrap()` at line
67 of the source panic). -/
def hexU64 (ds : List Char) : Option Nat :=
  if ds = [] then none
  else if ds.all hexC then
    (if ds.foldl (fun a c => 16 * a + hexDigitVal c) 0 < 2 ^ 64 then
      some (ds.foldl (fun a c => 16 * a + hexDigitVal c) 0)
    else none)
  else none

/-- `"SUMMARY: "` (line 50 of the source). -/
def summaryTok : List Char := "SUMMARY: ".toList

/-- `"SEGV"` (line 74 of the source). -/
def segvTok : List Char := "SEGV".toList

/-- The extracted crash report (`AsanInfo` in the source; `first_frame` is a
`u64`, kept as a `Nat` that the checked parse bounds below `2^64`). -/
structure AsanInfo where
  stop_reason : List Char
  operation : List Char
  first_frame : Nat
  body : List Char
deriving DecidableEq, Repr

/-- Shallow embedding of `asan_post_process` (lines 28-89 of the source).
Rust panics — out-of-bounds slicing and the `unwrap`s — are `.error`. -/
def asan_post_process (input : List Char) : Except String (Option AsanInfo) :=
  match capturesLast input with
  | none => .ok none
  | some m =>
    match capsLookup 2 m.caps with
    | none => .error "unwrap failed: no pid group"
    | some (ps, pe) =>
      let marker := strSlice input ps pe
      let asanStartPos := m.start
      if ps ≤ input.length then
        let nextPos := lineSum marker (input.drop ps) + ps
        if nextPos ≤ input.length then
          let rest := input.drop nextPos
          let endPos :=
            match substrFind rest marker with
            | some posRel => posRel + nextPos + marker.length
            | none =>
              match substrFind rest summaryTok with
              | some posRel =>
                (posRel + nextPos) +
                  ((substrFind (input.drop (posRel + nextPos)) ('\n' :: [])).getD 0)
              | none => nextPos
          if asanStartPos ≤ endPos ∧ endPos ≤ input.length then
            let asanBody := strSlice input asanStartPos endPos
            match capsLookup 4 m.caps with
            | none => .error "unwrap failed: no reason group"
            | some (rs, re) =>
              let stopReason := strSlice input rs re
              let frameRes : Except String Nat :=
                match findFrom R_ASAN_FIRST_FRAME asanBody 0 with
                | some fm =>
                  match capsLookup 1 fm.caps with
                  | none => .error "unwrap failed: no frame group"
                  | some (fs, fe) =>
                    match hexU64 ((strSlice asanBody fs fe).drop 2) with
                    | some v => .ok v
                    | none => .error "unwrap failed: u64 from_str_radix"
                | none => .ok 0
              match frameRes with
              | .error e => .error e
              | .ok ff =>
                let operation :=
                  match capsLookup 5 m.caps with
                  | some (os, oe) =>
                    if stopReason = segvTok then [] else strSlice input os oe
                  | none => []
                .ok (some ⟨stopReason, operation, ff, trimEnd asanBody⟩)
          else .error "byte index out of bounds: body strSlice"
        else .error "byte index out of bounds: next_pos"
      else .error "byte index out of bounds: pid start"

/-- The skip boundary as the specification words it ("skip forward past every
consecutive line, starting right at the marker's position, that still
contains that same marker token"): the number of characters, counted from the
start of `s`, of the maximal run of whole lines each containing `marker`,
where a line extends up to and including its `'\n'` terminator (an
unterminated final line extends to the end of `s`).  Lines are taken as
`'\n'`-delimited; the claim restricting carriage returns makes this agree
with `str::lines`. -/
def specSkipGo (marker : List Char) : Nat → List Char → Nat
  | _, [] => 0
  | 0, _ :: _ => 0
  | fuel + 1, ch :: t =>
    let l1 := (ch :: t).takeWhile (fun c => c ≠ '\n')
    if (substrFind l1 marker).isSome then
      if l1.length < (ch :: t).length then
        l1.length + 1 + specSkipGo marker fuel ((ch :: t).drop (l1.length + 1))
      else (ch :: t).length
    else 0

/-- The skip boundary, via the structural worker `specSkipGo` (each step
consumes at least one character, so `fuel = s.length` suffices). -/
def specSkipLen (marker : List Char) (s : List Char) : Nat :=
  specSkipGo marker s.length s

/-- The position after the marker-line skip, as the code computes it
(line 42 of the source), given the `pid` span `[ps, pe)`. -/
def nextPosOf (input : List Char) (ps pe : Nat) : Nat :=
  lineSum (strSlice input ps pe) (input.drop ps) + ps

/-- The end of the report body, as the code computes it (lines 48-57 of the
source), given the `pid` span `[ps, pe)`. -/
def endPosOf (input : List Char) (ps pe : Nat) : Nat :=
  match substrFind (input.drop (nextPosOf input ps pe)) (strSlice input ps pe) with
  | some posRel => posRel + nextPosOf input ps pe + (strSlice input ps pe).length
  | none =>
    match substrFind (input.drop (nextPosOf input ps pe)) summaryTok with
    | some posRel =>
      (posRel + nextPosOf input ps pe) +
        ((substrFind (input.drop (posRel + nextPosOf input ps pe)) ('\n' :: [])).getD 0)
    | none => nextPosOf input ps pe

deriving instance DecidableEq for Except

/-- Declarative match semantics for `RE`: `Sem r w p c c'` states that `r`
can match exactly the word `w` starting at absolute position `p`, turning
the capture environment `c` into `c'`. -/
inductive Sem : RE → List Char → Nat → Caps → Caps → Prop
  | lit (l : List Char) (p : Nat) (c : Caps) : Sem (.lit l) l p c c
  | cls {f : Char → Bool} {ch : Char} (p : Nat) (c : Caps) :
      f ch = true → Sem (.cls f) [ch] p c c
  | star {f : Char → Bool} {w : List Char} (p : Nat) (c : Caps) :
      (∀ ch ∈ w, f ch = true) → Sem (.star f) w p c c
  | plus {f : Char → Bool} {w : List Char} (p : Nat) (c : Caps) :
      w ≠ [] → (∀ ch ∈ w, f ch = true) → Sem (.plus f) w p c c
  | optSome {r : RE} {w : List Char} {p : Nat} {c c1 : Caps} :
      Sem r w p c c1 → Sem (.opt r) w p c c1
  | optNone {r : RE} (p : Nat) (c : Caps) : Sem (.opt r) [] p c c
  | seq {r1 r2 : RE} {w1 w2 : List Char} {p : Nat} {c c1 c2 : Caps} :
      Sem r1 w1 p c c1 → Sem r2 w2 (p + w1.length) c1 c2 →
      Sem (.seq r1 r2) (w1 ++ w2) p c c2
  | grp {r : RE} {w : List Char} {p : Nat} {c c1 : Caps} (i : Nat) :
      Sem r w p c c1 → Sem (.grp i r) w p c ((i, p, p + w.length) :: c1)

/-- Shape of the word matched by the `pid` group `=+[0-9]+=+`. -/
def pidShape (wp : List Char) : Prop :=
  ∃ wa wb wc, wp = wa ++ (wb ++ wc) ∧ wa ≠ [] ∧ wb ≠ [] ∧ wc ≠ [] ∧
    (∀ ch ∈ wa, isEq ch = true) ∧ (∀ ch ∈ wb, digitC ch = true) ∧
    (∀ ch ∈ wc, isEq ch = true)

/-- Regexes containing no capture group (they leave captures untouched). -/
def groupFree : RE → Prop
  | .grp _ _ => False
  | .seq r1 r2 => groupFree r1 ∧ groupFree r2
  | .opt r => groupFree r
  | _ => True

/-- A successful `beginsWith` exposes the prefix. -/
theorem beginsWith_eq_append {pat s : List Char} (h : beginsWith pat s = true) :
    ∃ t, s = pat ++ t := by
  induction pat generalizing s with
  | nil => exact ⟨s, rfl⟩
  | cons a pa ih =>
    cases s with
    | nil => simp [beginsWith] at h
    | cons b sb =>
      simp only [beginsWith, Bool.and_eq_true, beq_iff_eq] at h
      obtain ⟨t, ht⟩ := ih h.2
      exact ⟨t, by simp [h.1, ht]⟩

/-- Conversely, a literal prefix passes `beginsWith`. -/
theorem beginsWith_append (pat t : List Char) : beginsWith pat (pat ++ t) = true := by
  induction pat with
  | nil => rfl
  | cons a pa ih => simp [beginsWith, ih]

/-- Characters within the reach of the `takeWhile` bound satisfy the class. -/
theorem mem_take_of_le_takeWhile {f : Char → Bool} {s : List Char} {j : Nat}
    (hj : j ≤ (s.takeWhile f).length) : ∀ ch ∈ s.take j, f ch = true := by
  induction s generalizing j with
  | nil => simp
  | cons a t ih =>
    cases hfa : f a with
    | false =>
      have htw : (a :: t).takeWhile f = [] := by simp [List.takeWhile_cons, hfa]
      rw [htw] at hj
      simp only [List.length_nil, Nat.le_zero] at hj
      simp [hj]
    | true =>
      have htw : (a :: t).takeWhile f = a :: t.takeWhile f := by
        simp [List.takeWhile_cons, hfa]
      rw [htw] at hj
      cases j with
      | zero => simp
      | succ j' =>
        simp only [List.length_cons, Nat.succ_le_succ_iff] at hj
        intro ch hch
        simp only [List.take_succ_cons, List.mem_cons] at hch
        rcases hch with h | h
        · exact h ▸ hfa
        · exact ih hj ch h

/-- Soundness of the greedy repetition helper: a success means the
continuation accepted after some `j ≤ n` characters were consumed. -/
theorem tryRun_sound {α} {s : List Char} {p : Nat} {c : Caps}
    {k : List Char → Nat → Caps → Option α} {v : α} :
    ∀ {n : Nat}, tryRun s p c k n = some v →
    ∃ j, j ≤ n ∧ k (s.drop j) (p + j) c = some v := by
  intro n
  induction n with
  | zero => intro h; exact ⟨0, Nat.le_refl 0, by simpa using h⟩
  | succ n ih =>
    intro h
    simp only [tryRun] at h
    split at h
    · rename_i v' hk
      exact ⟨n + 1, Nat.le_refl _, hk.trans h⟩
    · rename_i hk
      obtain ⟨j, hj, hkj⟩ := ih h
      exact ⟨j, Nat.le_succ_of_le hj, hkj⟩

/-- The `takeWhile` prefix is no longer than the list. -/
theorem takeWhile_len_le (f : Char → Bool) (s : List Char) :
    (s.takeWhile f).length ≤ s.length := by
  induction s with
  | nil => simp
  | cons a t ih =>
    cases hfa : f a
    · simp [List.takeWhile_cons, hfa]
    · simp only [List.takeWhile_cons, hfa, if_true, List.length_cons]
      omega

/-- Soundness of the backtracking matcher: a success factors through the
declarative semantics and a continuation call on the leftover input. -/
theorem matQ_sound {α} : ∀ (r : RE) (s : List Char) (p : Nat) (c : Caps)
    (k : List Char → Nat → Caps → Option α) (v : α),
    matQ r s p c k = some v →
    ∃ n c', n ≤ s.length ∧ Sem r (s.take n) p c c' ∧
      k (s.drop n) (p + n) c' = some v := by
  intro r
  induction r with
  | lit l =>
    intro s p c k v h
    simp only [matQ] at h
    split at h
    · rename_i hb
      obtain ⟨t, ht⟩ := beginsWith_eq_append hb
      subst ht
      refine ⟨l.length, c, by simp, ?_, h⟩
      rw [List.take_left]
      exact Sem.lit l p c
    · exact absurd h (by simp)
  | cls f =>
    intro s p c k v h
    cases s with
    | nil => simp [matQ] at h
    | cons ch t =>
      simp only [matQ] at h
      split at h
      · rename_i hf
        exact ⟨1, c, by simp, by simpa using @Sem.cls f ch p c hf, h⟩
      · exact absurd h (by simp)
  | star f =>
    intro s p c k v h
    simp only [matQ] at h
    obtain ⟨j, hj, hk⟩ := tryRun_sound h
    exact ⟨j, c, Nat.le_trans hj (takeWhile_len_le f s),
      Sem.star p c (mem_take_of_le_takeWhile hj), hk⟩
  | plus f =>
    intro s p c k v h
    cases s with
    | nil => simp [matQ] at h
    | cons ch t =>
      simp only [matQ] at h
      split at h
      · rename_i hf
        obtain ⟨j, hj, hk⟩ := tryRun_sound h
        refine ⟨j + 1, c, ?_, ?_, ?_⟩
        · simpa using Nat.succ_le_succ (Nat.le_trans hj (takeWhile_len_le f t))
        · refine Sem.plus p c (by simp) ?_
          intro c2 hc2
          simp only [List.take_succ_cons, List.mem_cons] at hc2
          rcases hc2 with h2 | h2
          · exact h2 ▸ hf
          · exact mem_take_of_le_takeWhile hj c2 h2
        · simpa [Nat.add_comm, Nat.add_assoc, Nat.add_left_comm] using hk
      · exact absurd h (by simp)
  | opt r ih =>
    intro s p c k v h
    simp only [matQ] at h
    split at h
    · rename_i v' hm
      obtain ⟨n, c', hn, hsem, hk⟩ := ih s p c k v (hm.trans h)
      exact ⟨n, c', hn, Sem.optSome hsem, hk⟩
    · rename_i hm
      exact ⟨0, c, Nat.zero_le _, by simpa using Sem.optNone p c, by simpa using h⟩
  | seq r1 r2 ih1 ih2 =>
    intro s p c k v h
    simp only [matQ] at h
    obtain ⟨n1, c1, hn1, hsem1, hk1⟩ := ih1 s p c _ v h
    obtain ⟨n2, c2, hn2, hsem2, hk2⟩ := ih2 (s.drop n1) (p + n1) c1 k v hk1
    refine ⟨n1 + n2, c2, ?_, ?_, ?_⟩
    · have := List.length_drop n1 s
      omega
    · rw [List.take_add]
      have hlen : (s.take n1).length = n1 := by
        rw [List.length_take]
        omega
      exact Sem.seq hsem1 (by rw [hlen]; exact hsem2)
    · rw [List.drop_drop, Nat.add_assoc] at hk2
      exact hk2
  | grp i r ih =>
    intro s p c k v h
    simp only [matQ] at h
    obtain ⟨n, c1, hn, hsem, hk⟩ := ih s p c _ v h
    refine ⟨n, (i, p, p + n) :: c1, hn, ?_, hk⟩
    have hg := @Sem.grp r (s.take n) p c c1 i hsem
    have hlen : (s.take n).length = n := by
      rw [List.length_take]
      omega
    rw [hlen] at hg
    exact hg

/-- A group-free regex does not modify the capture environment. -/
theorem sem_groupFree : ∀ {r w p c c'}, Sem r w p c c' → groupFree r → c' = c := by
  intro r w p c c' h
  induction h with
  | lit => intro; rfl
  | cls => intro; rfl
  | star => intro; rfl
  | plus => intro; rfl
  | optSome _ ih => intro hg; exact ih hg
  | optNone => intro; rfl
  | seq _ _ ih1 ih2 =>
    intro hg
    exact (ih2 hg.2).trans (ih1 hg.1)
  | grp _ _ _ => intro hg; exact absurd hg (by simp [groupFree])

/-- Inversion for the optional leading separator `([=]+[\r\n]+)?`. -/
theorem sem_sep_inv {w : List Char} {q : Nat} {c c' : Caps}
    (h : Sem (.opt (.grp 1 (.seq (.plus isEq) (.plus crlfC)))) w q c c') :
    c' = c ∨ c' = (1, q, q + w.length) :: c := by
  cases h with
  | optNone => exact Or.inl rfl
  | optSome hg =>
    cases hg with
    | grp _ hin =>
      right
      rw [sem_groupFree hin (by simp [groupFree])]

/-- Inversion for the `pid` group `(?P<pid>=+[0-9]+=+)`. -/
theorem sem_pid_inv {w : List Char} {q : Nat} {c c' : Caps}
    (h : Sem (.grp 2 (.seq (.plus isEq) (.seq (.plus digitC) (.plus isEq)))) w q c c') :
    c' = (2, q, q + w.length) :: c ∧ pidShape w := by
  cases h with
  | grp _ hin =>
    cases hin with
    | seq ha hrest =>
      cases hrest with
      | seq hb hc =>
        cases ha
        cases hb
        cases hc
        rename_i wa wb wc hane haall hbne hball hcne hcall
        exact ⟨rfl, wa, wb, wc, rfl, hane, hbne, hcne, haall, hball, hcall⟩
/-- Inversion for the optional `(attempting\s)?` group. -/
theorem sem_att_inv {w : List Char} {q : Nat} {c c' : Caps}
    (h : Sem (.opt (.grp 3 (.seq (.lit ("attempting".toList)) (.cls wsC)))) w q c c') :
    c' = c ∨ c' = (3, q, q + w.length) :: c := by
  cases h with
  | optNone => exact Or.inl rfl
  | optSome hg =>
    cases hg with
    | grp _ hin =>
      right
      rw [sem_groupFree hin (by simp [groupFree])]

/-- Inversion for the `reason` group `(?P<reason>[-_A-Za-z0-9]+)`. -/
theorem sem_reason_inv {w : List Char} {q : Nat} {c c' : Caps}
    (h : Sem (.grp 4 (.plus wordC)) w q c c') :
    c' = (4, q, q + w.length) :: c ∧ w ≠ [] ∧ ∀ ch ∈ w, wordC ch = true := by
  cases h with
  | grp _ hin =>
    cases hin with
    | plus _ _ hne hall => exact ⟨rfl, hne, hall⟩

/-- Inversion for the optional `operation` group `(?P<operation>[-_A-Za-z0-9]+)?`. -/
theorem sem_op_inv {w : List Char} {q : Nat} {c c' : Caps}
    (h : Sem (.opt (.grp 5 (.plus wordC))) w q c c') :
    (c' = c ∧ w = []) ∨
    (c' = (5, q, q + w.length) :: c ∧ w ≠ [] ∧ ∀ ch ∈ w, wordC ch = true) := by
  cases h with
  | optNone => exact Or.inl ⟨rfl, rfl⟩
  | optSome hg =>
    cases hg with
    | grp _ hin =>
      cases hin with
      | plus _ _ hne hall => exact Or.inr ⟨rfl, hne, hall⟩

/-- Soundness of the bounded position scan. -/
theorem findFromGo_sound {re : RE} {input : List Char} :
    ∀ {fuel q : Nat} {m : RMatch}, findFromGo re input q fuel = some m →
    matchAt re input m.start = some (m.stop, m.caps) ∧ q ≤ m.start := by
  intro fuel
  induction fuel with
  | zero => intro q m h; simp [findFromGo] at h
  | succ fuel ih =>
    intro q m h
    simp only [findFromGo] at h
    split at h
    · rename_i e c hma
      cases h
      exact ⟨hma, Nat.le_refl q⟩
    · rename_i hma
      obtain ⟨h1, h2⟩ := ih h
      exact ⟨h1, Nat.le_of_succ_le h2⟩

/-- Soundness of `findFrom`. -/
theorem findFrom_sound {re : RE} {input : List Char} {q : Nat} {m : RMatch}
    (h : findFrom re input q = some m) :
    matchAt re input m.start = some (m.stop, m.caps) ∧ q ≤ m.start :=
  findFromGo_sound h

/-- Every match produced by the `captures_iter` loop is a real match. -/
theorem capsListGo_mem {re : RE} {input : List Char} :
    ∀ {fuel p : Nat} {m : RMatch}, m ∈ capsListGo re input fuel p →
    matchAt re input m.start = some (m.stop, m.caps) := by
  intro fuel
  induction fuel with
  | zero => intro p m h; simp [capsListGo] at h
  | succ fuel ih =>
    intro p m h
    simp only [capsListGo] at h
    split at h
    · simp at h
    · rename_i m' hf
      rcases List.mem_cons.1 h with rfl | h2
      · exact (findFrom_sound hf).1
      · exact ih h2

/-- A `getLast?` hit is a member. -/
theorem mem_of_getLastQ {α : Type} {l : List α} {a : α} (h : l.getLast? = some a) :
    a ∈ l := by
  induction l with
  | nil => simp [List.getLast?] at h
  | cons x xs ih =>
    cases xs with
    | nil =>
      simp only [List.getLast?_singleton, Option.some.injEq] at h
      simp [h]
    | cons y ys =>
      rw [List.getLast?_cons_cons] at h
      exact List.mem_cons_of_mem x (ih h)

/-- The selected headline is a real match of `R_ASAN_HEADLINE`. -/
theorem capturesLast_sound {input : List Char} {m : RMatch}
    (h : capturesLast input = some m) :
    matchAt R_ASAN_HEADLINE input m.start = some (m.stop, m.caps) :=
  capsListGo_mem (mem_of_getLastQ h)

/-- A successful anchored match yields a `Sem` derivation on a prefix of the
remaining input. -/
theorem matchAt_sem {re : RE} {input : List Char} {q e : Nat} {c : Caps}
    (h : matchAt re input q = some (e, c)) :
    ∃ n, n ≤ (input.drop q).length ∧ Sem re ((input.drop q).take n) q [] c ∧
      e = q + n := by
  obtain ⟨n, c', hn, hsem, hk⟩ := matQ_sound re (input.drop q) q [] _ (e, c) h
  have heq := Option.some.inj hk
  have he : e = q + n := (congrArg Prod.fst heq).symm
  have hc : c' = c := congrArg Prod.snd heq
  exact ⟨n, hn, hc ▸ hsem, he⟩

/-- Structural inversion for a headline match: positions and character-class
facts for the `pid`, `reason` and `operation` captures, with each capture's
span located inside the matched word `w` by an explicit decomposition. -/
theorem headline_sem_inv {w : List Char} {p : Nat} {c' : Caps}
    (h : Sem R_ASAN_HEADLINE w p [] c') :
    ∃ wA wPid wRest,
      w = wA ++ (wPid ++ wRest) ∧
      capsLookup 2 c' = some (p + wA.length, p + wA.length + wPid.length) ∧
      pidShape wPid ∧
      (∃ wB wR wS,
        w = wB ++ (wR ++ wS) ∧
        capsLookup 4 c' = some (p + wB.length, p + wB.length + wR.length) ∧
        wR ≠ [] ∧ (∀ ch ∈ wR, wordC ch = true)) ∧
      (capsLookup 5 c' = none ∨
       ∃ wC wO,
         w = wC ++ wO ∧
         capsLookup 5 c' = some (p + wC.length, p + wC.length + wO.length) ∧
         wO ≠ [] ∧ (∀ ch ∈ wO, wordC ch = true)) := by
  simp only [R_ASAN_HEADLINE] at h
  cases h with | seq hA hr1 => ?_
  rename_i w1 wrest1 c1
  cases hr1 with | seq hB hr2 => ?_
  rename_i w2 wrest2 c2
  cases hr2 with | seq hC hr3 => ?_
  rename_i w3 wrest3 c3
  cases hr3 with | seq hD hr4 => ?_
  rename_i w4 wrest4 c4
  cases hr4 with | seq hE hr5 => ?_
  rename_i w5 wrest5 c5
  cases hr5 with | seq hF hr6 => ?_
  rename_i w6 wrest6 c6
  cases hr6 with | seq hG hr7 => ?_
  rename_i w7 wrest7 c7
  cases hr7 with | seq hH hr8 => ?_
  rename_i w8 wrest8 c8
  cases hr8 with | seq hI hr9 => ?_
  rename_i w9 wrest9 c9
  cases hr9 with | seq hJ hr10 => ?_
  rename_i w10 wrest10 c10
  cases hr10 with | seq hK hOp => ?_
  rename_i w11 w12 c11
  obtain ⟨hc2, hpid⟩ := sem_pid_inv hB
  subst hc2
  have hc3 := sem_groupFree hC (by simp [groupFree])
  subst hc3
  have hc4 := sem_groupFree hD (by simp [groupFree])
  subst hc4
  have hc5 := sem_groupFree hE (by simp [groupFree])
  subst hc5
  have hc6 := sem_groupFree hF (by simp [groupFree])
  subst hc6
  have hc7 := sem_groupFree hG (by simp [groupFree])
  subst hc7
  obtain ⟨hc9, hRne, hRall⟩ := sem_reason_inv hI
  subst hc9
  have hc10 := sem_groupFree hJ (by simp [groupFree])
  subst hc10
  have hc11 := sem_groupFree hK (by simp [groupFree])
  subst hc11
  rcases sem_sep_inv hA with h1 | h1 <;>
    rcases sem_att_inv hH with h8 | h8 <;>
      rcases sem_op_inv hOp with ⟨hcf, hw12⟩ | ⟨hcf, hOne, hOall⟩ <;>
        subst hcf <;> subst h8 <;> subst h1 <;>
  refine ⟨w1, w2, _, rfl, by simp [capsLookup], hpid,
    ⟨w1 ++ (w2 ++ (w3 ++ (w4 ++ (w5 ++ (w6 ++ (w7 ++ w8)))))), w9,
      w10 ++ (w11 ++ w12), by simp [List.append_assoc], by
      simp only [capsLookup, List.length_append]
      norm_num
      omega, hRne, hRall⟩, ?_⟩
  · exact Or.inl (by simp [capsLookup])
  · refine Or.inr ⟨w1 ++ (w2 ++ (w3 ++ (w4 ++ (w5 ++ (w6 ++ (w7 ++ (w8 ++
      (w9 ++ (w10 ++ w11))))))))), w12, by simp [List.append_assoc], by
      simp only [capsLookup, List.length_append]
      norm_num
      omega, hOne, hOall⟩
  · exact Or.inl (by simp [capsLookup])
  · refine Or.inr ⟨w1 ++ (w2 ++ (w3 ++ (w4 ++ (w5 ++ (w6 ++ (w7 ++ (w8 ++
      (w9 ++ (w10 ++ w11))))))))), w12, by simp [List.append_assoc], by
      simp only [capsLookup, List.length_append]
      norm_num
      omega, hOne, hOall⟩
  · exact Or.inl (by simp [capsLookup])
  · refine Or.inr ⟨w1 ++ (w2 ++ (w3 ++ (w4 ++ (w5 ++ (w6 ++ (w7 ++ (w8 ++
      (w9 ++ (w10 ++ w11))))))))), w12, by simp [List.append_assoc], by
      simp only [capsLookup, List.length_append]
      norm_num
      omega, hOne, hOall⟩
  · exact Or.inl (by simp [capsLookup])
  · refine Or.inr ⟨w1 ++ (w2 ++ (w3 ++ (w4 ++ (w5 ++ (w6 ++ (w7 ++ (w8 ++
      (w9 ++ (w10 ++ w11))))))))), w12, by simp [List.append_assoc], by
      simp only [capsLookup, List.length_append]
      norm_num
      omega, hOne, hOall⟩

/-- Anatomy of a successful extraction: a run that returns `Some` determines
every field of the report from the last headline match, the `pid` span and
the computed body span, and certifies all the slice bounds checks. -/
theorem asan_ok_shape {input : List Char} {r : AsanInfo}
    (hok : asan_post_process input = .ok (some r)) :
    ∃ m ps pe rs re,
      capturesLast input = some m ∧
      capsLookup 2 m.caps = some (ps, pe) ∧
      capsLookup 4 m.caps = some (rs, re) ∧
      ps ≤ input.length ∧
      nextPosOf input ps pe ≤ input.length ∧
      m.start ≤ endPosOf input ps pe ∧
      endPosOf input ps pe ≤ input.length ∧
      r.stop_reason = strSlice input rs re ∧
      r.body = trimEnd (strSlice input m.start (endPosOf input ps pe)) ∧
      ((capsLookup 5 m.caps = none ∧ r.operation = []) ∨
       (∃ os oe, capsLookup 5 m.caps = some (os, oe) ∧
         r.operation =
           (if r.stop_reason = segvTok then [] else strSlice input os oe))) ∧
      ((findFrom R_ASAN_FIRST_FRAME
          (strSlice input m.start (endPosOf input ps pe)) 0 = none ∧
        r.first_frame = 0) ∨
       (∃ fm fs fe, findFrom R_ASAN_FIRST_FRAME
          (strSlice input m.start (endPosOf input ps pe)) 0 = some fm ∧
         capsLookup 1 fm.caps = some (fs, fe) ∧
         hexU64 ((strSlice (strSlice input m.start (endPosOf input ps pe)) fs fe).drop 2) =
           some r.first_frame)) := by
  simp only [asan_post_process] at hok
  split at hok
  · simp at hok
  · rename_i m hm
    split at hok
    · simp at hok
    · rename_i pspe ps pe hpid
      split at hok
      · split at hok
        · split at hok
          · rename_i hps hnp hbd
            split at hok
            · simp at hok
            · rename_i rsre rs re hrsn
              split at hok
              · simp at hok
              · rename_i ff hff
                have hrec := Option.some.inj (Except.ok.inj hok)
                subst hrec
                refine ⟨m, ps, pe, rs, re, hm, hpid, hrsn, hps, hnp, ?_, ?_, rfl, rfl, ?_, ?_⟩
                · exact hbd.1
                · exact hbd.2
                · split
                  · rename_i osoe os oe h5
                    exact Or.inr ⟨os, oe, h5, rfl⟩
                  · rename_i h5
                    exact Or.inl ⟨h5, rfl⟩
                · split at hff
                  · rename_i fm hfm
                    split at hff
                    · simp at hff
                    · rename_i fsfe fs fe hfg
                      split at hff
                      · rename_i v hv
                        exact Or.inr ⟨fm, fs, fe, hfm, hfg, hv.trans (by
                          rw [Except.ok.injEq] at hff
                          rw [hff])⟩
                      · simp at hff
                  · rename_i hfm
                    exact Or.inl ⟨hfm, (Except.ok.inj hff).symm⟩
          · simp at hok
        · simp at hok
      · simp at hok

/-- A `beginsWith` prefix is no longer than the string. -/
theorem beginsWith_length_le {pat s : List Char} (h : beginsWith pat s = true) :
    pat.length ≤ s.length := by
  obtain ⟨t, ht⟩ := beginsWith_eq_append h
  subst ht
  simp

/-- `trimEnd` only removes characters from the end. -/
theorem trimEnd_prefix (s : List Char) : ∃ t, s = trimEnd s ++ t := by
  refine ⟨(s.reverse.takeWhile wsC).reverse, ?_⟩
  unfold trimEnd
  conv_lhs => rw [← s.reverse_reverse, ← @List.takeWhile_append_dropWhile _ wsC s.reverse]
  rw [List.reverse_append]

/-- A string whose last character is not whitespace is untouched by
`trimEnd`. -/
theorem trimEnd_eq_self {s : List Char} {t : List Char} {ch : Char}
    (hs : s = t ++ [ch]) (hch : wsC ch = false) : trimEnd s = s := by
  subst hs
  unfold trimEnd
  rw [List.reverse_append]
  simp only [List.reverse_cons, List.reverse_nil, List.nil_append, List.cons_append,
    List.dropWhile_cons]
  rw [hch]
  simp

/-- A string containing a non-whitespace character does not trim to empty. -/
theorem trimEnd_ne_nil {s : List Char} {ch : Char} (hm : ch ∈ s)
    (hch : wsC ch = false) : trimEnd s ≠ [] := by
  intro h
  unfold trimEnd at h
  rw [List.reverse_eq_nil_iff] at h
  have := List.dropWhile_eq_nil_iff.1 h ch (by simpa using hm)
  rw [hch] at this
  exact Bool.false_ne_true this

/-- `strSlice` as a take of a drop. -/
theorem strSlice_eq_drop_take (input : List Char) (a b : Nat) :
    strSlice input a b = (input.drop a).take (b - a) := by
  unfold strSlice
  rw [List.drop_take]

/-- Slices over adjacent ranges concatenate. -/
theorem strSlice_append {input : List Char} {a b c : Nat} (hab : a ≤ b) (hbc : b ≤ c)
    (hb : b ≤ input.length) :
    strSlice input a c = strSlice input a b ++ strSlice input b c := by
  unfold strSlice
  have h1 : input.take c = input.take b ++ (input.take c).drop b := by
    have h0 : input.take b = (input.take c).take b := by
      rw [List.take_take, Nat.min_eq_left hbc]
    rw [h0, List.take_append_drop]
  conv_lhs => rw [h1]
  rw [List.drop_append_of_le_length]
  rw [List.length_take]
  omega

/-- Length of an in-bounds slice. -/
theorem strSlice_length {input : List Char} {a b : Nat} (hb : b ≤ input.length) :
    (strSlice input a b).length = b - a := by
  unfold strSlice
  rw [List.length_drop, List.length_take]
  omega

/-- The middle segment of a decomposed window is recovered by `strSlice`. -/
theorem strSlice_center {input wA wB wC : List Char} {p n : Nat}
    (hw : (input.drop p).take n = wA ++ (wB ++ wC)) :
    strSlice input (p + wA.length) (p + wA.length + wB.length) = wB := by
  rw [strSlice_eq_drop_take]
  have hd : input.drop (p + wA.length) = (input.drop p).drop wA.length := by
    rw [List.drop_drop, Nat.add_comm]
  rw [hd]
  have hsplit : input.drop p = (wA ++ (wB ++ wC)) ++ (input.drop p).drop n := by
    rw [← hw, List.take_append_drop]
  rw [hsplit]
  have h2 : p + wA.length + wB.length - (p + wA.length) = wB.length := by omega
  rw [h2, List.append_assoc wA, List.drop_left, List.append_assoc wB, List.take_left]

/-- A match of the pattern at the front makes `substrFind` return `0`. -/
theorem substrFind_of_beginsWith {s pat : List Char} (h : beginsWith pat s = true) :
    substrFind s pat = some 0 := by
  unfold substrFind
  rw [if_pos h]

/-- A `substrFind` hit means the pattern occurs at that offset. -/
theorem substrFind_some_begins {pat : List Char} :
    ∀ {s : List Char} {j : Nat}, substrFind s pat = some j →
    beginsWith pat (s.drop j) = true := by
  intro s
  induction s with
  | nil =>
    intro j h
    unfold substrFind at h
    split at h
    · rename_i hb
      cases h
      exact hb
    · simp at h
  | cons a t ih =>
    intro j h
    unfold substrFind at h
    split at h
    · rename_i hb
      cases h
      exact hb
    · simp only [Option.map_eq_some'] at h
      obtain ⟨j', hj', rfl⟩ := h
      simpa using ih hj'

/-- The pattern fits inside the string when `substrFind` succeeds. -/
theorem substrFind_some_le {pat s : List Char} {j : Nat}
    (h : substrFind s pat = some j) : j + pat.length ≤ s.length := by
  have hb := beginsWith_length_le (substrFind_some_begins h)
  rw [List.length_drop] at hb
  have : j ≤ s.length := by
    by_contra hj
    rw [Nat.sub_eq_zero_of_le (by omega)] at hb
    have : pat.length = 0 := by omega
    -- with an empty pattern, substrFind returns 0 at the front
    rcases pat with _ | ⟨a, pa⟩
    · unfold substrFind at h
      rw [if_pos (by rfl)] at h
      cases h
      omega
    · simp at this
  omega

/-- A prefix through `takeWhile` for patterns avoiding the stop character. -/
theorem beginsWith_takeWhile {pat s : List Char}
    (hpat : ∀ ch ∈ pat, ch ≠ '\n') (h : beginsWith pat s = true) :
    beginsWith pat (s.takeWhile (fun c => c ≠ '\n')) = true := by
  induction pat generalizing s with
  | nil => rfl
  | cons a pa ih =>
    cases s with
    | nil => simp [beginsWith] at h
    | cons b sb =>
      simp only [beginsWith, Bool.and_eq_true, beq_iff_eq] at h
      obtain ⟨rfl, h2⟩ := h
      have hb : (a : Char) ≠ '\n' := hpat a (by simp)
      have hstep : ((a :: sb).takeWhile (fun c => c ≠ '\n')) =
          a :: sb.takeWhile (fun c => c ≠ '\n') := by
        simp [List.takeWhile_cons, hb]
      rw [hstep]
      simp only [beginsWith, Bool.and_eq_true, beq_self_eq_true, true_and]
      exact ih (fun ch hch => hpat ch (List.mem_cons_of_mem a hch)) h2

/-- `stripCR` does not disturb a prefix free of carriage returns. -/
theorem beginsWith_stripCR {pat l : List Char}
    (hpat : ∀ ch ∈ pat, ch ≠ '\r') (h : beginsWith pat l = true) :
    beginsWith pat (stripCR l) = true := by
  unfold stripCR
  split
  · rename_i hlast
    obtain ⟨t, rfl⟩ := beginsWith_eq_append h
    cases t with
    | nil =>
      rw [List.append_nil] at hlast
      exact absurd rfl (hpat '\r' (mem_of_getLastQ hlast))
    | cons x xs =>
      rw [List.dropLast_append_cons]
      exact beginsWith_append pat _
  · exact h

/-- A carriage-return-free line is untouched by `stripCR`. -/
theorem stripCR_no_cr {l : List Char} (h : ∀ ch ∈ l, ch ≠ '\r') :
    stripCR l = l := by
  unfold stripCR
  split
  · rename_i hlast
    exact absurd rfl (h '\r' (mem_of_getLastQ hlast))
  · rfl

/-- The `rustLinesGo` result is fuel-independent once the fuel covers the
string length. -/
theorem rustLinesGo_congr : ∀ {f1 f2 : Nat} {s : List Char},
    s.length ≤ f1 → s.length ≤ f2 → rustLinesGo f1 s = rustLinesGo f2 s := by
  intro f1
  induction f1 with
  | zero =>
    intro f2 s h1 h2
    cases s with
    | nil => cases f2 <;> rfl
    | cons ch t => simp at h1
  | succ f1 ih =>
    intro f2 s h1 h2
    cases s with
    | nil => cases f2 <;> rfl
    | cons ch t =>
      cases f2 with
      | zero => simp at h2
      | succ f2 =>
        simp only [rustLinesGo]
        have hlen : ((ch :: t).drop
            (((ch :: t).takeWhile (fun c => c ≠ '\n')).length + 1)).length ≤ f1 := by
          rw [List.length_drop]
          simp only [List.length_cons] at h1 ⊢
          omega
        have hlen2 : ((ch :: t).drop
            (((ch :: t).takeWhile (fun c => c ≠ '\n')).length + 1)).length ≤ f2 := by
          rw [List.length_drop]
          simp only [List.length_cons] at h2 ⊢
          omega
        rw [ih hlen hlen2]

/-- One-step unfolding of `rustLines` on a nonempty string. -/
theorem rustLines_cons (ch : Char) (t : List Char) :
    rustLines (ch :: t) =
      stripCR ((ch :: t).takeWhile (fun c => c ≠ '\n')) ::
        rustLines ((ch :: t).drop
          (((ch :: t).takeWhile (fun c => c ≠ '\n')).length + 1)) := by
  unfold rustLines
  simp only [List.length_cons, rustLinesGo]
  congr 1
  exact rustLinesGo_congr (by rw [List.length_drop]; simp only [List.length_cons]; omega)
    (Nat.le_refl _)

/-- One-step unfolding of `lineSum` on a nonempty string. -/
theorem lineSum_cons (marker : List Char) (ch : Char) (t : List Char) :
    lineSum marker (ch :: t) =
      (if (substrFind (stripCR ((ch :: t).takeWhile (fun c => c ≠ '\n'))) marker).isSome
       then (stripCR ((ch :: t).takeWhile (fun c => c ≠ '\n'))).length + 1 +
         lineSum marker ((ch :: t).drop
           (((ch :: t).takeWhile (fun c => c ≠ '\n')).length + 1))
       else 0) := by
  unfold lineSum
  rw [rustLines_cons]
  rw [List.takeWhile_cons]
  split
  · simp
  · simp

/-- The `specSkipGo` result is fuel-independent once the fuel covers the
string length. -/
theorem specSkipGo_congr {marker : List Char} : ∀ {f1 f2 : Nat} {s : List Char},
    s.length ≤ f1 → s.length ≤ f2 → specSkipGo marker f1 s = specSkipGo marker f2 s := by
  intro f1
  induction f1 with
  | zero =>
    intro f2 s h1 h2
    cases s with
    | nil => cases f2 <;> rfl
    | cons ch t => simp at h1
  | succ f1 ih =>
    intro f2 s h1 h2
    cases s with
    | nil => cases f2 <;> rfl
    | cons ch t =>
      cases f2 with
      | zero => simp at h2
      | succ f2 =>
        simp only [specSkipGo]
        have hlen : ((ch :: t).drop
            (((ch :: t).takeWhile (fun c => c ≠ '\n')).length + 1)).length ≤ f1 := by
          rw [List.length_drop]
          simp only [List.length_cons] at h1 ⊢
          omega
        have hlen2 : ((ch :: t).drop
            (((ch :: t).takeWhile (fun c => c ≠ '\n')).length + 1)).length ≤ f2 := by
          rw [List.length_drop]
          simp only [List.length_cons] at h2 ⊢
          omega
        rw [ih hlen hlen2]

/-- One-step unfolding of `specSkipLen` on a nonempty string. -/
theorem specSkipLen_cons (marker : List Char) (ch : Char) (t : List Char) :
    specSkipLen marker (ch :: t) =
      (if (substrFind ((ch :: t).takeWhile (fun c => c ≠ '\n')) marker).isSome
       then
         (if ((ch :: t).takeWhile (fun c => c ≠ '\n')).length < (ch :: t).length then
           ((ch :: t).takeWhile (fun c => c ≠ '\n')).length + 1 +
             specSkipLen marker ((ch :: t).drop
               (((ch :: t).takeWhile (fun c => c ≠ '\n')).length + 1))
         else (ch :: t).length)
       else 0) := by
  unfold specSkipLen
  simp only [List.length_cons, specSkipGo]
  split
  · rename_i htest
    split
    · rename_i hlt
      congr 1
      exact specSkipGo_congr (by rw [List.length_drop]; simp only [List.length_cons]; omega)
        (Nat.le_refl _)
    · rfl
  · rfl

/-- Membership in a `takeWhile` prefix is membership in the list. -/
theorem mem_of_takeWhile {f : Char → Bool} : ∀ {s : List Char} {a : Char},
    a ∈ s.takeWhile f → a ∈ s := by
  intro s
  induction s with
  | nil => intro a h; simp at h
  | cons b t ih =>
    intro a h
    rw [List.takeWhile_cons] at h
    split at h
    · rcases List.mem_cons.1 h with rfl | h2
      · exact List.mem_cons_self ..
      · exact List.mem_cons_of_mem b (ih h2)
    · simp at h

/-- Worker for `lineSum_eq_specSkipLen`, inducting on a length bound. -/
theorem lineSum_eq_specSkipLen_aux {marker : List Char} :
    ∀ (n : Nat) (s : List Char), s.length ≤ n →
    (∀ ch ∈ s, ch ≠ '\r') → lineSum marker s ≤ s.length →
    lineSum marker s = specSkipLen marker s := by
  intro n
  induction n with
  | zero =>
    intro s hn hcr hle
    cases s with
    | nil => rfl
    | cons ch t => simp at hn
  | succ n ih =>
    intro s hn hcr hle
    cases s with
    | nil => rfl
    | cons ch t =>
      have hl1cr : ∀ ch2 ∈ (ch :: t).takeWhile (fun c => c ≠ '\n'), ch2 ≠ '\r' :=
        fun ch2 h2 => hcr ch2 (mem_of_takeWhile h2)
      have hstrip : stripCR ((ch :: t).takeWhile (fun c => c ≠ '\n')) =
          (ch :: t).takeWhile (fun c => c ≠ '\n') := stripCR_no_cr hl1cr
      rw [lineSum_cons, hstrip] at hle ⊢
      rw [specSkipLen_cons]
      split
      · rename_i htest
        rw [if_pos htest] at hle
        by_cases hlt :
            ((ch :: t).takeWhile (fun c => c ≠ '\n')).length < (ch :: t).length
        · rw [if_pos hlt]
          have htail_len : ((ch :: t).drop
              (((ch :: t).takeWhile (fun c => c ≠ '\n')).length + 1)).length =
              (ch :: t).length - (((ch :: t).takeWhile (fun c => c ≠ '\n')).length + 1) :=
            List.length_drop ..
          congr 1
          apply ih
          · rw [htail_len]
            simp only [List.length_cons] at hn ⊢
            omega
          · exact fun ch2 h2 => hcr ch2 (List.drop_subset _ _ h2)
          · rw [htail_len]
            omega
        · rw [if_neg hlt]
          exfalso
          have hlen_le : ((ch :: t).takeWhile (fun c => c ≠ '\n')).length ≤
              (ch :: t).length := takeWhile_len_le ..
          have htail : (ch :: t).drop
              (((ch :: t).takeWhile (fun c => c ≠ '\n')).length + 1) = [] := by
            apply List.drop_eq_nil_of_le
            omega
          rw [htail] at hle
          have hz : lineSum marker [] = 0 := rfl
          omega
      · rfl

/-- On carriage-return-free input, the skip computed by the code via
`lines()` length sums coincides with the specification's line-skip boundary,
provided the computed skip stays inside the string (which the successful
slice at line 48 of the source certifies). -/
theorem lineSum_eq_specSkipLen {marker s : List Char}
    (hcr : ∀ ch ∈ s, ch ≠ '\r') (hle : lineSum marker s ≤ s.length) :
    lineSum marker s = specSkipLen marker s :=
  lineSum_eq_specSkipLen_aux s.length s (Nat.le_refl _) hcr hle

/-- Any `take` prefix passes `beginsWith`. -/
theorem beginsWith_take (s : List Char) (n : Nat) : beginsWith (s.take n) s = true := by
  induction s generalizing n with
  | nil => cases n <;> rfl
  | cons a t ih =>
    cases n with
    | zero => rfl
    | succ n =>
      simp only [List.take_succ_cons, beginsWith, beq_self_eq_true, Bool.true_and]
      exact ih n

/-- Character-level consequences of the `pid` word shape: nonempty, free of
line breaks and whitespace, containing `'='`, and ending in `'='`. -/
theorem pidShape_chars {wp : List Char} (h : pidShape wp) :
    wp ≠ [] ∧ (∀ ch ∈ wp, ch ≠ '\n' ∧ ch ≠ '\r') ∧
    (∃ ch ∈ wp, wsC ch = false) ∧ (∃ t, wp = t ++ ['=']) := by
  obtain ⟨wa, wb, wc, rfl, hane, hbne, hcne, haall, hball, hcall⟩ := h
  have heqc : ∀ ch : Char, isEq ch = true → ch = '=' := by
    intro ch hch
    simpa [isEq] using hch
  have hclass : ∀ ch ∈ wa ++ (wb ++ wc), ch = '=' ∨ digitC ch = true := by
    intro ch hch
    rcases List.mem_append.1 hch with h1 | h1
    · exact Or.inl (heqc ch (haall ch h1))
    · rcases List.mem_append.1 h1 with h2 | h2
      · exact Or.inr (hball ch h2)
      · exact Or.inl (heqc ch (hcall ch h2))
  refine ⟨by simp [hane], ?_, ?_, ?_⟩
  · intro ch hch
    rcases hclass ch hch with rfl | hd
    · exact ⟨by decide, by decide⟩
    · constructor
      · intro hn
        rw [hn] at hd
        exact absurd hd (by decide)
      · intro hn
        rw [hn] at hd
        exact absurd hd (by decide)
  · cases wa with
    | nil => exact absurd rfl hane
    | cons a0 ta =>
      refine ⟨a0, by simp, ?_⟩
      rw [heqc a0 (haall a0 (by simp))]
      decide
  · rcases List.eq_nil_or_concat wc with rfl | ⟨ys, y, rfl⟩
    · exact absurd rfl hcne
    · refine ⟨wa ++ (wb ++ ys), ?_⟩
      rw [heqc y (hcall y (by simp))]
      simp

/-- The marker-skip position lies strictly beyond the `pid` span: the line at
the marker's position starts with the marker itself, so at least that line is
skipped. -/
theorem pe_lt_nextPos {input : List Char} {ps pe : Nat}
    (hpe : pe ≤ input.length) (hlt : ps < pe)
    (hshape : pidShape (strSlice input ps pe)) :
    pe < nextPosOf input ps pe := by
  obtain ⟨hne, hnl, _, _⟩ := pidShape_chars hshape
  have hbw : beginsWith (strSlice input ps pe) (input.drop ps) = true := by
    rw [strSlice_eq_drop_take]
    exact beginsWith_take _ _
  have hmlen : (strSlice input ps pe).length = pe - ps := strSlice_length hpe
  cases hd : input.drop ps with
  | nil =>
    rw [hd] at hbw
    cases hmk : strSlice input ps pe with
    | nil => exact absurd hmk hne
    | cons a t =>
      rw [hmk] at hbw
      simp [beginsWith] at hbw
  | cons ch t =>
    rw [hd] at hbw
    unfold nextPosOf
    rw [hd, lineSum_cons]
    have h1 : beginsWith (strSlice input ps pe)
        ((ch :: t).takeWhile (fun c => c ≠ '\n')) = true :=
      beginsWith_takeWhile (fun c hc => (hnl c hc).1) hbw
    have h2 : beginsWith (strSlice input ps pe)
        (stripCR ((ch :: t).takeWhile (fun c => c ≠ '\n'))) = true :=
      beginsWith_stripCR (fun c hc => (hnl c hc).2) h1
    rw [substrFind_of_beginsWith h2]
    have hlen := beginsWith_length_le h2
    simp only [Option.isSome_some, if_true]
    omega

/-- The computed body end never precedes the skip position. -/
theorem nextPos_le_endPos (input : List Char) (ps pe : Nat) :
    nextPosOf input ps pe ≤ endPosOf input ps pe := by
  unfold endPosOf
  split
  · omega
  · split
    · omega
    · exact Nat.le_refl _

/-- Full anatomy of a successful extraction, combining the execution shape
with the structural facts about the selected headline match: span ordering,
marker shape, reason and operation character classes, nonemptiness of the
body, and the frame-derivation disjunction. -/
theorem asan_ok_full {input : List Char} {r : AsanInfo}
    (hok : asan_post_process input = .ok (some r)) :
    ∃ m ps pe rs re,
      capturesLast input = some m ∧
      capsLookup 2 m.caps = some (ps, pe) ∧
      capsLookup 4 m.caps = some (rs, re) ∧
      m.start ≤ ps ∧ ps < pe ∧ pe < nextPosOf input ps pe ∧
      nextPosOf input ps pe ≤ endPosOf input ps pe ∧
      endPosOf input ps pe ≤ input.length ∧
      pidShape (strSlice input ps pe) ∧
      rs < re ∧ re ≤ input.length ∧
      r.stop_reason = strSlice input rs re ∧
      (∀ ch ∈ r.stop_reason, wordC ch = true) ∧
      r.body = trimEnd (strSlice input m.start (endPosOf input ps pe)) ∧
      r.body ≠ [] ∧
      (r.operation = [] ∨ ∀ ch ∈ r.operation, wordC ch = true) ∧
      ((capsLookup 5 m.caps = none ∧ r.operation = []) ∨
       (∃ os oe, capsLookup 5 m.caps = some (os, oe) ∧
         r.operation =
           (if r.stop_reason = segvTok then [] else strSlice input os oe))) ∧
      ((findFrom R_ASAN_FIRST_FRAME
          (strSlice input m.start (endPosOf input ps pe)) 0 = none ∧
        r.first_frame = 0) ∨
       (∃ fm fs fe, findFrom R_ASAN_FIRST_FRAME
          (strSlice input m.start (endPosOf input ps pe)) 0 = some fm ∧
         capsLookup 1 fm.caps = some (fs, fe) ∧
         hexU64 ((strSlice (strSlice input m.start (endPosOf input ps pe)) fs fe).drop 2) =
           some r.first_frame)) := by
  obtain ⟨m, ps, pe, rs, re, hm, hpid, hrsn, hps, hnp, hse, hel, hstop, hbody, hop, hfr⟩ :=
    asan_ok_shape hok
  have hmatch := capturesLast_sound hm
  obtain ⟨n, hn, hsem, hstop2⟩ := matchAt_sem hmatch
  obtain ⟨wA, wPid, wRest, hw1, hlk2, hpidshape,
    ⟨wB, wR, wS, hw2, hlk4, hRne, hRall⟩, hopinv⟩ := headline_sem_inv hsem
  have hps_eq := Option.some.inj (hpid.symm.trans hlk2)
  rw [Prod.mk.injEq] at hps_eq
  obtain ⟨hps1, hpe1⟩ := hps_eq
  have hrs_eq := Option.some.inj (hrsn.symm.trans hlk4)
  rw [Prod.mk.injEq] at hrs_eq
  obtain ⟨hrs1, hre1⟩ := hrs_eq
  have hmarker : strSlice input ps pe = wPid := by
    rw [hps1, hpe1]
    exact strSlice_center hw1
  have hreason : strSlice input rs re = wR := by
    rw [hrs1, hre1]
    exact strSlice_center hw2
  have hwlen : wA.length + (wPid.length + wRest.length) = n := by
    have h0 : ((input.drop m.start).take n).length = n := by
      rw [List.length_take]
      omega
    rw [hw1] at h0
    simpa [List.length_append] using h0
  have hPidne : wPid ≠ [] := (pidShape_chars (hmarker ▸ hpidshape)).1
  have hPidpos : 0 < wPid.length := List.length_pos_of_ne_nil hPidne
  have hRpos : 0 < wR.length := List.length_pos_of_ne_nil hRne
  have hdroplen : (input.drop m.start).length = input.length - m.start :=
    List.length_drop ..
  have hmn : m.start + n ≤ input.length := by
    rw [hdroplen] at hn
    omega
  have hpelen : pe ≤ input.length := by omega
  have hpslt : ps < pe := by omega
  have hrelen : re ≤ input.length := by
    have hw2len : wB.length + (wR.length + wS.length) = n := by
      have h0 : ((input.drop m.start).take n).length = n := by
        rw [List.length_take]
        omega
      rw [hw2] at h0
      simpa [List.length_append] using h0
    omega
  have hshape2 : pidShape (strSlice input ps pe) := hmarker ▸ hpidshape
  have hpenp : pe < nextPosOf input ps pe := pe_lt_nextPos hpelen hpslt hshape2
  have hnpend : nextPosOf input ps pe ≤ endPosOf input ps pe := nextPos_le_endPos ..
  have hbody_ne : r.body ≠ [] := by
    obtain ⟨_, _, ⟨chw, hchw, hchws⟩, _⟩ := pidShape_chars hshape2
    have hsplit1 : strSlice input m.start (endPosOf input ps pe) =
        strSlice input m.start ps ++ strSlice input ps (endPosOf input ps pe) :=
      strSlice_append (by omega) (by omega) (by omega)
    have hsplit2 : strSlice input ps (endPosOf input ps pe) =
        strSlice input ps pe ++ strSlice input pe (endPosOf input ps pe) :=
      strSlice_append (by omega) (by omega) (by omega)
    have hmem : chw ∈ strSlice input m.start (endPosOf input ps pe) := by
      rw [hsplit1, hsplit2]
      exact List.mem_append_right _ (List.mem_append_left _ hchw)
    rw [hbody]
    exact trimEnd_ne_nil hmem hchws
  refine ⟨m, ps, pe, rs, re, hm, hpid, hrsn, by omega, hpslt, hpenp, hnpend, hel, hshape2,
    by omega, hrelen, hstop, ?_, hbody, hbody_ne, ?_, hop, hfr⟩
  · intro ch hch
    rw [hstop, hreason] at hch
    exact hRall ch hch
  · rcases hop with ⟨h5, hopv⟩ | ⟨os, oe, h5, hopv⟩
    · exact Or.inl hopv
    · rw [hopv]
      split
      · exact Or.inl rfl
      · rcases hopinv with h5n | ⟨wC, wO, hw3, hlk5, hOne, hOall⟩
        · rw [h5n] at h5
          cases h5
        · have hos_eq := Option.some.inj (h5.symm.trans hlk5)
          rw [Prod.mk.injEq] at hos_eq
          obtain ⟨hos1, hoe1⟩ := hos_eq
          have hopw : strSlice input os oe = wO := by
            rw [hos1, hoe1]
            have hw3' : (input.drop m.start).take n = wC ++ (wO ++ []) := by
              rw [hw3]
              simp
            exact strSlice_center hw3'
          right
          intro ch hch
          rw [hopw] at hch
          exact hOall ch hch

/-- Body end when a further marker occurrence exists (line 48 branch). -/
theorem endPosOf_eq_marker {input : List Char} {ps pe j : Nat}
    (h : substrFind (input.drop (nextPosOf input ps pe)) (strSlice input ps pe) = some j) :
    endPosOf input ps pe = j + nextPosOf input ps pe + (strSlice input ps pe).length := by
  unfold endPosOf
  rw [h]

/-- Body end in the `SUMMARY: ` fallback (lines 50-53 branch). -/
theorem endPosOf_eq_summary {input : List Char} {ps pe j d : Nat}
    (h1 : substrFind (input.drop (nextPosOf input ps pe)) (strSlice input ps pe) = none)
    (h2 : substrFind (input.drop (nextPosOf input ps pe)) summaryTok = some j)
    (h3 : substrFind (input.drop (j + nextPosOf input ps pe)) ('\n' :: []) = some d) :
    endPosOf input ps pe = (j + nextPosOf input ps pe) + d := by
  unfold endPosOf
  rw [h1, h2]
  simp only [h3, Option.getD_some]

/-- Body end in the consume-nothing-more fallback (line 56 branch). -/
theorem endPosOf_eq_next {input : List Char} {ps pe : Nat}
    (h1 : substrFind (input.drop (nextPosOf input ps pe)) (strSlice input ps pe) = none)
    (h2 : substrFind (input.drop (nextPosOf input ps pe)) summaryTok = none) :
    endPosOf input ps pe = nextPosOf input ps pe := by
  unfold endPosOf
  rw [h1, h2]

/-- A pattern beginning at position `a` is the slice of its own length. -/
theorem strSlice_of_beginsWith {input pat : List Char} {a : Nat}
    (h : beginsWith pat (input.drop a) = true) :
    strSlice input a (a + pat.length) = pat := by
  obtain ⟨t, ht⟩ := beginsWith_eq_append h
  rw [strSlice_eq_drop_take, ht, Nat.add_sub_cancel_left, List.take_left]

/-- C8: whenever a report is produced, `operation` is forced empty for
`stop_reason = "SEGV"` regardless of the captured operation token, and is
otherwise the captured token verbatim (empty when no token was captured). -/
theorem C8_segv_forces_empty_operation (input : List Char) (r : AsanInfo)
    (hok : asan_post_process input = .ok (some r)) :
    ∃ m, capturesLast input = some m ∧
      (r.stop_reason = segvTok → r.operation = []) ∧
      (r.stop_reason ≠ segvTok →
        r.operation = (match capsLookup 5 m.caps with
          | some (os, oe) => strSlice input os oe
          | none => [])) := by
  obtain ⟨m, ps, pe, rs, re, hm, _, _, _, _, _, _, _, _, _, _, _, _, _, _, _, hop, _⟩ :=
    asan_ok_full hok
  refine ⟨m, hm, ?_, ?_⟩
  · intro _
    rcases hop with ⟨_, hopv⟩ | ⟨os, oe, _, hopv⟩
    · exact hopv
    · rw [hopv]
      simp_all
  · intro hne
    rcases hop with ⟨h5, hopv⟩ | ⟨os, oe, h5, hopv⟩
    · rw [h5]
      exact hopv
    · rw [h5, hopv, if_neg hne]

/-- C9: whenever a report is produced, the stop reason is nonempty, the body
is nonempty, and the body starts exactly at the byte offset where the
selected headline match starts (it is a prefix of the input from that
offset). -/
theorem C9_report_invariants (input : List Char) (r : AsanInfo)
    (hok : asan_post_process input = .ok (some r)) :
    r.stop_reason ≠ [] ∧ r.body ≠ [] ∧
    ∃ m, capturesLast input = some m ∧
      ∃ t, input.drop m.start = r.body ++ t := by
  obtain ⟨m, ps, pe, rs, re, hm, _, _, _, _, _, _, hel, _, hrsre, hrelen, hstop, _, hbody,
    hbne, _, _, _⟩ := asan_ok_full hok
  refine ⟨?_, hbne, m, hm, ?_⟩
  · rw [hstop]
    intro hnil
    have hlen : (strSlice input rs re).length = re - rs := strSlice_length hrelen
    rw [hnil] at hlen
    simp at hlen
    omega
  · obtain ⟨t1, ht1⟩ := trimEnd_prefix (strSlice input m.start (endPosOf input ps pe))
    refine ⟨t1 ++ (input.drop m.start).drop (endPosOf input ps pe - m.start), ?_⟩
    rw [hbody]
    calc input.drop m.start
        = (input.drop m.start).take (endPosOf input ps pe - m.start) ++
            (input.drop m.start).drop (endPosOf input ps pe - m.start) :=
          (List.take_append_drop ..).symm
      _ = strSlice input m.start (endPosOf input ps pe) ++
            (input.drop m.start).drop (endPosOf input ps pe - m.start) := by
          rw [← strSlice_eq_drop_take]
      _ = (trimEnd (strSlice input m.start (endPosOf input ps pe)) ++ t1) ++
            (input.drop m.start).drop (endPosOf input ps pe - m.start) := by
          rw [← ht1]
      _ = trimEnd (strSlice input m.start (endPosOf input ps pe)) ++
            (t1 ++ (input.drop m.start).drop (endPosOf input ps pe - m.start)) := by
          rw [List.append_assoc]

/-- C10: whenever a report is produced, every character of `stop_reason` is
from the class `[-_A-Za-z0-9]`, and `operation` is either empty or likewise
drawn entirely from that class. -/
theorem C10_field_character_classes (input : List Char) (r : AsanInfo)
    (hok : asan_post_process input = .ok (some r)) :
    (∀ ch ∈ r.stop_reason, wordC ch = true) ∧
    (r.operation = [] ∨ ∀ ch ∈ r.operation, wordC ch = true) := by
  obtain ⟨m, ps, pe, rs, re, _, _, _, _, _, _, _, _, _, _, _, _, hstopc, _, _, hopc, _, _⟩ :=
    asan_ok_full hok
  exact ⟨hstopc, hopc⟩

/-- C3 (amended): the produced report is derived from the last match of the
forward non-overlapping scan (`captures_iter(..).last()`): its reason capture
is the stop reason, and the nonempty body starts exactly at that match's
start offset.  (The scan being non-overlapping, a later headline occurrence
beginning inside an earlier match's span is not considered: see the
counterexample.) -/
theorem C3_last_scan_match (input : List Char) (r : AsanInfo)
    (hok : asan_post_process input = .ok (some r)) :
    ∃ m rs re, capturesLast input = some m ∧
      capsLookup 4 m.caps = some (rs, re) ∧
      r.stop_reason = strSlice input rs re ∧
      r.body ≠ [] ∧
      ∃ t, input.drop m.start = r.body ++ t := by
  obtain ⟨m, ps, pe, rs, re, hm, _, hrsn, _, _, _, _, hel, _, _, _, hstop, _, hbody,
    hbne, _, _, _⟩ := asan_ok_full hok
  refine ⟨m, rs, re, hm, hrsn, hstop, hbne, ?_⟩
  obtain ⟨t1, ht1⟩ := trimEnd_prefix (strSlice input m.start (endPosOf input ps pe))
  refine ⟨t1 ++ (input.drop m.start).drop (endPosOf input ps pe - m.start), ?_⟩
  rw [hbody]
  calc input.drop m.start
      = (input.drop m.start).take (endPosOf input ps pe - m.start) ++
          (input.drop m.start).drop (endPosOf input ps pe - m.start) :=
        (List.take_append_drop ..).symm
    _ = strSlice input m.start (endPosOf input ps pe) ++
          (input.drop m.start).drop (endPosOf input ps pe - m.start) := by
        rw [← strSlice_eq_drop_take]
    _ = (trimEnd (strSlice input m.start (endPosOf input ps pe)) ++ t1) ++
          (input.drop m.start).drop (endPosOf input ps pe - m.start) := by
        rw [← ht1]
    _ = trimEnd (strSlice input m.start (endPosOf input ps pe)) ++
          (t1 ++ (input.drop m.start).drop (endPosOf input ps pe - m.start)) := by
        rw [List.append_assoc]

/-- C7 (amended): `first_frame` is derived from the first `#0 \s+ 0x<hex>`
marker of the extracted body span (the span before its final right-trim,
of which the body is the trim): the parsed value when such a marker exists
(possibly itself `0`), and `0` when none does. -/
theorem C7_first_frame_value (input : List Char) (r : AsanInfo)
    (hok : asan_post_process input = .ok (some r)) :
    ∃ b, r.body = trimEnd b ∧
      ((findFrom R_ASAN_FIRST_FRAME b 0 = none ∧ r.first_frame = 0) ∨
       (∃ fm fs fe, findFrom R_ASAN_FIRST_FRAME b 0 = some fm ∧
         capsLookup 1 fm.caps = some (fs, fe) ∧
         hexU64 ((strSlice b fs fe).drop 2) = some r.first_frame)) := by
  obtain ⟨m, ps, pe, rs, re, _, _, _, _, _, _, _, _, _, _, _, _, _, hbody, _, _, _, hfr⟩ :=
    asan_ok_full hok
  exact ⟨strSlice input m.start (endPosOf input ps pe), hbody, hfr⟩

/-- C5 (amended): when no further marker occurrence exists after the skip
position but `SUMMARY: ` does, and a newline terminates that summary line,
the body ends at the end of that line (right-trimmed; the trim also removes
trailing spaces or a carriage return of the line itself).  Without a
newline after `SUMMARY: ` the body instead ends before the token (see the
counterexample). -/
theorem C5_summary_line_end (input : List Char) (r : AsanInfo) (ps pe j d : Nat)
    (hok : asan_post_process input = .ok (some r))
    (hm : ∃ m, capturesLast input = some m ∧ capsLookup 2 m.caps = some (ps, pe))
    (hnomark : substrFind (input.drop (nextPosOf input ps pe))
      (strSlice input ps pe) = none)
    (hsum : substrFind (input.drop (nextPosOf input ps pe)) summaryTok = some j)
    (hnl : substrFind (input.drop (j + nextPosOf input ps pe)) ('\n' :: []) = some d) :
    ∃ m, capturesLast input = some m ∧
      r.body = trimEnd (strSlice input m.start ((j + nextPosOf input ps pe) + d)) := by
  obtain ⟨m, ps', pe', rs, re, hm', hpid', _, _, _, _, _, _, _, _, _, _, _, hbody,
    _, _, _, _⟩ := asan_ok_full hok
  obtain ⟨m0, hm0, hpid0⟩ := hm
  rw [hm'] at hm0
  obtain rfl := Option.some.inj hm0
  have hsp := Option.some.inj (hpid'.symm.trans hpid0)
  rw [Prod.mk.injEq] at hsp
  obtain ⟨h1, h2⟩ := hsp
  subst h1
  subst h2
  rw [endPosOf_eq_summary hnomark hsum hnl] at hbody
  exact ⟨m, hm', hbody⟩

/-- C6 (amended): when neither a further marker occurrence nor `SUMMARY: `
exists after the skip position, the body extends exactly to the skip
position (right-trimmed) — thus it consumes all remaining text precisely
when the skip reached the end of the input — and `first_frame` is `0`
whenever that span contains no parseable frame marker. -/
theorem C6_truncated_body_end (input : List Char) (r : AsanInfo) (ps pe : Nat)
    (hok : asan_post_process input = .ok (some r))
    (hm : ∃ m, capturesLast input = some m ∧ capsLookup 2 m.caps = some (ps, pe))
    (hnomark : substrFind (input.drop (nextPosOf input ps pe))
      (strSlice input ps pe) = none)
    (hnosum : substrFind (input.drop (nextPosOf input ps pe)) summaryTok = none) :
    ∃ m, capturesLast input = some m ∧
      r.body = trimEnd (strSlice input m.start (nextPosOf input ps pe)) ∧
      (findFrom R_ASAN_FIRST_FRAME
          (strSlice input m.start (nextPosOf input ps pe)) 0 = none →
        r.first_frame = 0) := by
  obtain ⟨m, ps', pe', rs, re, hm', hpid', _, _, _, _, _, _, _, _, _, _, _, hbody,
    _, _, _, hfr⟩ := asan_ok_full hok
  obtain ⟨m0, hm0, hpid0⟩ := hm
  rw [hm'] at hm0
  obtain rfl := Option.some.inj hm0
  have hsp := Option.some.inj (hpid'.symm.trans hpid0)
  rw [Prod.mk.injEq] at hsp
  obtain ⟨h1, h2⟩ := hsp
  subst h1
  subst h2
  rw [endPosOf_eq_next hnomark hnosum] at hbody hfr
  refine ⟨m, hm', hbody, ?_⟩
  intro hnone
  rcases hfr with ⟨_, hz⟩ | ⟨fm, fs, fe, hsome, _, _⟩
  · exact hz
  · rw [hnone] at hsome
    cases hsome

/-- C4 (amended): on carriage-return-free input (LF line terminators, where
the code's per-line `len()+1` accounting is exact), if a further marker
occurrence exists past the spec's line-skip boundary, the body ends exactly
immediately after that occurrence — the final right-trim is a no-op because
the marker ends in `'='`. -/
theorem C4_terminator_end (input : List Char) (r : AsanInfo) (ps pe j : Nat)
    (hok : asan_post_process input = .ok (some r))
    (hcr : ∀ ch ∈ input, ch ≠ '\r')
    (hm : ∃ m, capturesLast input = some m ∧ capsLookup 2 m.caps = some (ps, pe))
    (hfind : substrFind
      (input.drop (ps + specSkipLen (strSlice input ps pe) (input.drop ps)))
      (strSlice input ps pe) = some j) :
    ∃ m, capturesLast input = some m ∧
      r.body = strSlice input m.start
        (ps + specSkipLen (strSlice input ps pe) (input.drop ps) + j +
          (strSlice input ps pe).length) := by
  obtain ⟨m, ps', pe', rs, re, hm', hpid', _, hmsps, hpspe, hpenp, hnpe, hel, hshape,
    _, _, _, _, hbody, _, _, _, _⟩ := asan_ok_full hok
  obtain ⟨m0, hm0, hpid0⟩ := hm
  rw [hm'] at hm0
  obtain rfl := Option.some.inj hm0
  have hsp := Option.some.inj (hpid0.symm.trans hpid')
  rw [Prod.mk.injEq] at hsp
  obtain ⟨h1, h2⟩ := hsp
  subst h1
  subst h2
  have hnple : nextPosOf input ps pe ≤ input.length := Nat.le_trans hnpe hel
  have hcr' : ∀ ch ∈ input.drop ps, ch ≠ '\r' :=
    fun ch hch => hcr ch (List.drop_subset _ _ hch)
  have hls : lineSum (strSlice input ps pe) (input.drop ps) ≤ (input.drop ps).length := by
    rw [List.length_drop]
    unfold nextPosOf at hnple
    omega
  have hskip : nextPosOf input ps pe =
      ps + specSkipLen (strSlice input ps pe) (input.drop ps) := by
    unfold nextPosOf
    rw [lineSum_eq_specSkipLen hcr' hls]
    omega
  have hfind' : substrFind (input.drop (nextPosOf input ps pe))
      (strSlice input ps pe) = some j := by
    rw [hskip]
    exact hfind
  have hend := endPosOf_eq_marker hfind'
  have hend2 : endPosOf input ps pe =
      nextPosOf input ps pe + j + (strSlice input ps pe).length := by
    rw [hend]
    omega
  have hjlen := substrFind_some_le hfind'
  rw [List.length_drop] at hjlen
  have hmarker_at : beginsWith (strSlice input ps pe)
      (input.drop (nextPosOf input ps pe + j)) = true := by
    have hb := substrFind_some_begins hfind'
    rw [List.drop_drop] at hb
    simpa [Nat.add_comm] using hb
  have hslice_mk : strSlice input (nextPosOf input ps pe + j)
      (nextPosOf input ps pe + j + (strSlice input ps pe).length) =
      strSlice input ps pe :=
    strSlice_of_beginsWith hmarker_at
  have hsplit0 : strSlice input m.start
      (nextPosOf input ps pe + j + (strSlice input ps pe).length) =
      strSlice input m.start (nextPosOf input ps pe + j) ++
        strSlice input (nextPosOf input ps pe + j)
          (nextPosOf input ps pe + j + (strSlice input ps pe).length) := by
    apply strSlice_append
    · omega
    · omega
    · omega
  have hsplit : strSlice input m.start (endPosOf input ps pe) =
      strSlice input m.start (nextPosOf input ps pe + j) ++ strSlice input ps pe := by
    rw [hend2, hsplit0, hslice_mk]
  obtain ⟨_, _, _, tm, htm⟩ := pidShape_chars hshape
  have htrim : trimEnd (strSlice input m.start (endPosOf input ps pe)) =
      strSlice input m.start (endPosOf input ps pe) := by
    apply @trimEnd_eq_self _
      (strSlice input m.start (nextPosOf input ps pe + j) ++ tm) '='

    · rw [hsplit, htm, ← List.append_assoc]
    · decide
  refine ⟨m, hm', ?_⟩
  rw [hbody, htrim]
  have hidx : endPosOf input ps pe =
      ps + specSkipLen (strSlice input ps pe) (input.drop ps) + j +
        (strSlice input ps pe).length := by
    rw [hend2, hskip]
  rw [hidx]

/-- C1: the extraction does NOT terminate normally on every input: on this
input (a report whose `#0` frame address has 17 hex digits, exceeding
`u64::MAX`) the `u64::from_str_radix(..).unwrap()` at line 67 of the source
panics; the model surfaces the abort as an `.error`.  (The slicing past the
skipped marker lines can also abort: see the theorem for C2.) -/
theorem C1_frame_parse_aborts :
    asan_post_process
      ("==1==ERROR: AddressSanitizer: CODE\nz\n #0 0x10000000000000000\n==1==A\n".toList) =
      .error "unwrap failed: u64 from_str_radix" := by decide

/-- C2: an input on which the headline pattern matches, yet the extraction
returns neither `Some` nor `None`: the input ends inside a marker-containing
line without a newline, the `len()+1` line accounting overshoots the string,
and `&input[next_pos..]` at line 48 of the source panics (modeled as
`.error`). -/
theorem C2_match_exists_yet_aborts :
    (capturesLast ("==1==ERROR: AddressSanitizer: CODE\n==1==".toList)).isSome = true ∧
    asan_post_process ("==1==ERROR: AddressSanitizer: CODE\n==1==".toList) =
      .error "byte index out of bounds: next_pos" :=
  ⟨by decide, by decide⟩

/-- C3 (counterexample): the headline pattern also matches at position 32 of
this input — an occurrence later in document order, beginning inside the
span of the match at position 0 — yet the report is derived from the match
at position 0: `stop_reason` is `"X"` (the occurrence at 32 has reason
`"Y"`), and the 63-character body starts at offset 0, which no occurrence at
or after position 32 could produce. -/
theorem C3_counterexample :
    (matchAt R_ASAN_HEADLINE
      ("==1==ERROR: AddressSanitizer: X ==2==ERROR: AddressSanitizer: Y\nmore\n".toList)
      32).isSome = true ∧
    asan_post_process
      ("==1==ERROR: AddressSanitizer: X ==2==ERROR: AddressSanitizer: Y\nmore\n".toList) =
      .ok (some ⟨"X".toList, "more".toList, 0,
        "==1==ERROR: AddressSanitizer: X ==2==ERROR: AddressSanitizer: Y".toList⟩) :=
  ⟨by decide, by decide⟩

/-- C3 (witness): on an input with two successive well-formed reports, the
amended theorem applies and the report comes from the second scan match. -/
theorem C3_witness :
    asan_post_process
      ("==1==ERROR: AddressSanitizer: AAA\nx\n==2==ERROR: AddressSanitizer: BBB\ny\n==2==DONE\n".toList) =
      .ok (some ⟨"BBB".toList, "y".toList, 0,
        "==2==ERROR: AddressSanitizer: BBB\ny\n==2==".toList⟩) ∧
    (∃ m rs re, capturesLast
        ("==1==ERROR: AddressSanitizer: AAA\nx\n==2==ERROR: AddressSanitizer: BBB\ny\n==2==DONE\n".toList) =
        some m ∧
      capsLookup 4 m.caps = some (rs, re) ∧
      (⟨"BBB".toList, "y".toList, 0,
        "==2==ERROR: AddressSanitizer: BBB\ny\n==2==".toList⟩ : AsanInfo).stop_reason =
        strSlice
          ("==1==ERROR: AddressSanitizer: AAA\nx\n==2==ERROR: AddressSanitizer: BBB\ny\n==2==DONE\n".toList)
          rs re ∧
      (⟨"BBB".toList, "y".toList, 0,
        "==2==ERROR: AddressSanitizer: BBB\ny\n==2==".toList⟩ : AsanInfo).body ≠ [] ∧
      ∃ t, ("==1==ERROR: AddressSanitizer: AAA\nx\n==2==ERROR: AddressSanitizer: BBB\ny\n==2==DONE\n".toList).drop
          m.start =
        (⟨"BBB".toList, "y".toList, 0,
          "==2==ERROR: AddressSanitizer: BBB\ny\n==2==".toList⟩ : AsanInfo).body ++ t) :=
  ⟨by decide, C3_last_scan_match
    ("==1==ERROR: AddressSanitizer: AAA\nx\n==2==ERROR: AddressSanitizer: BBB\ny\n==2==DONE\n".toList)
    ⟨"BBB".toList, "y".toList, 0, "==2==ERROR: AddressSanitizer: BBB\ny\n==2==".toList⟩
    (by decide)⟩

/-- C4 (counterexample): with CR-LF line endings, the `len()+1` per-line
accounting undercounts each skipped line by one byte; here the computed skip
lands 7 characters short, the search finds the marker of the *last skipped
line*, and the body ends at offset 76 — inside the skipped lines — instead
of immediately after the next occurrence past the skip (the claim's end,
offset 87 = 78 + 4 + 5). -/
theorem C4_counterexample :
    specSkipLen ("==1==".toList)
      ("==1==ERROR: AddressSanitizer: CODE\r\n==1==\r\n==1==\r\n==1==\r\n==1==\r\n==1==\r\n==1==\r\nxx\r\n==1==ABORTING\r\n".toList) = 78 ∧
    substrFind
      (("==1==ERROR: AddressSanitizer: CODE\r\n==1==\r\n==1==\r\n==1==\r\n==1==\r\n==1==\r\n==1==\r\nxx\r\n==1==ABORTING\r\n".toList).drop 78)
      ("==1==".toList) = some 4 ∧
    capturesLast
      ("==1==ERROR: AddressSanitizer: CODE\r\n==1==\r\n==1==\r\n==1==\r\n==1==\r\n==1==\r\n==1==\r\nxx\r\n==1==ABORTING\r\n".toList) =
      some ⟨0, 36, [(4, 30, 34), (2, 0, 5)]⟩ ∧
    asan_post_process
      ("==1==ERROR: AddressSanitizer: CODE\r\n==1==\r\n==1==\r\n==1==\r\n==1==\r\n==1==\r\n==1==\r\nxx\r\n==1==ABORTING\r\n".toList) =
      .ok (some ⟨"CODE".toList, [], 0,
        "==1==ERROR: AddressSanitizer: CODE\r\n==1==\r\n==1==\r\n==1==\r\n==1==\r\n==1==\r\n==1==".toList⟩) ∧
    "==1==ERROR: AddressSanitizer: CODE\r\n==1==\r\n==1==\r\n==1==\r\n==1==\r\n==1==\r\n==1==".toList ≠
      trimEnd (strSlice
        ("==1==ERROR: AddressSanitizer: CODE\r\n==1==\r\n==1==\r\n==1==\r\n==1==\r\n==1==\r\n==1==\r\nxx\r\n==1==ABORTING\r\n".toList)
        0 87) :=
  ⟨by decide, by decide, by decide, by decide, by decide⟩

/-- C4 (witness): on a carriage-return-free report with a terminating marker
line, the amended theorem applies: the body ends exactly after the next
marker occurrence past the skipped lines. -/
theorem C4_witness :
    (∀ ch ∈ "==1==ERROR: AddressSanitizer: CODE\nz\n==1==ABORTING\n".toList, ch ≠ '\r') ∧
    substrFind
      (("==1==ERROR: AddressSanitizer: CODE\nz\n==1==ABORTING\n".toList).drop
        (0 + specSkipLen
          (strSlice ("==1==ERROR: AddressSanitizer: CODE\nz\n==1==ABORTING\n".toList) 0 5)
          (("==1==ERROR: AddressSanitizer: CODE\nz\n==1==ABORTING\n".toList).drop 0)))
      (strSlice ("==1==ERROR: AddressSanitizer: CODE\nz\n==1==ABORTING\n".toList) 0 5) =
      some 2 ∧
    (∃ m, capturesLast ("==1==ERROR: AddressSanitizer: CODE\nz\n==1==ABORTING\n".toList) =
        some m ∧
      (⟨"CODE".toList, "z".toList, 0,
        "==1==ERROR: AddressSanitizer: CODE\nz\n==1==".toList⟩ : AsanInfo).body =
        strSlice ("==1==ERROR: AddressSanitizer: CODE\nz\n==1==ABORTING\n".toList) m.start
          (0 + specSkipLen
            (strSlice ("==1==ERROR: AddressSanitizer: CODE\nz\n==1==ABORTING\n".toList) 0 5)
            (("==1==ERROR: AddressSanitizer: CODE\nz\n==1==ABORTING\n".toList).drop 0) + 2 +
            (strSlice ("==1==ERROR: AddressSanitizer: CODE\nz\n==1==ABORTING\n".toList) 0 5).length)) :=
  ⟨by decide, by decide,
    C4_terminator_end ("==1==ERROR: AddressSanitizer: CODE\nz\n==1==ABORTING\n".toList)
      ⟨"CODE".toList, "z".toList, 0, "==1==ERROR: AddressSanitizer: CODE\nz\n==1==".toList⟩
      0 5 2 (by decide) (by decide)
      ⟨⟨0, 36, [(5, 35, 36), (4, 30, 34), (2, 0, 5)]⟩, by decide, by decide⟩ (by decide)⟩

/-- C5 (counterexample): the report has no terminating marker but a
`SUMMARY: ` line; because the input ends inside that line (no newline after
the token), `find("\n").unwrap_or(0)` makes the body end *before* the
`SUMMARY: ` token — the summary line is not included in the body. -/
theorem C5_counterexample :
    substrFind
      (("==1==ERROR: AddressSanitizer: CODE\nB\nSUMMARY: x".toList).drop
        (nextPosOf ("==1==ERROR: AddressSanitizer: CODE\nB\nSUMMARY: x".toList) 0 5))
      ("==1==".toList) = none ∧
    (substrFind
      (("==1==ERROR: AddressSanitizer: CODE\nB\nSUMMARY: x".toList).drop
        (nextPosOf ("==1==ERROR: AddressSanitizer: CODE\nB\nSUMMARY: x".toList) 0 5))
      summaryTok).isSome = true ∧
    asan_post_process ("==1==ERROR: AddressSanitizer: CODE\nB\nSUMMARY: x".toList) =
      .ok (some ⟨"CODE".toList, "B".toList, 0,
        "==1==ERROR: AddressSanitizer: CODE\nB".toList⟩) ∧
    substrFind ("==1==ERROR: AddressSanitizer: CODE\nB".toList) summaryTok = none :=
  ⟨by decide, by decide, by decide, by decide⟩

/-- C5 (witness): with a newline-terminated summary line, the amended
theorem applies: the body ends at the end of the `SUMMARY: ` line. -/
theorem C5_witness :
    substrFind
      (("==1==ERROR: AddressSanitizer: CODE\nz\nSUMMARY: boom\ntrailing\n".toList).drop
        (nextPosOf ("==1==ERROR: AddressSanitizer: CODE\nz\nSUMMARY: boom\ntrailing\n".toList) 0 5))
      (strSlice ("==1==ERROR: AddressSanitizer: CODE\nz\nSUMMARY: boom\ntrailing\n".toList) 0 5) =
      none ∧
    substrFind
      (("==1==ERROR: AddressSanitizer: CODE\nz\nSUMMARY: boom\ntrailing\n".toList).drop
        (nextPosOf ("==1==ERROR: AddressSanitizer: CODE\nz\nSUMMARY: boom\ntrailing\n".toList) 0 5))
      summaryTok = some 2 ∧
    substrFind
      (("==1==ERROR: AddressSanitizer: CODE\nz\nSUMMARY: boom\ntrailing\n".toList).drop
        (2 + nextPosOf ("==1==ERROR: AddressSanitizer: CODE\nz\nSUMMARY: boom\ntrailing\n".toList) 0 5))
      ('\n' :: []) = some 13 ∧
    (∃ m, capturesLast ("==1==ERROR: AddressSanitizer: CODE\nz\nSUMMARY: boom\ntrailing\n".toList) =
        some m ∧
      (⟨"CODE".toList, "z".toList, 0,
        "==1==ERROR: AddressSanitizer: CODE\nz\nSUMMARY: boom".toList⟩ : AsanInfo).body =
        trimEnd (strSlice ("==1==ERROR: AddressSanitizer: CODE\nz\nSUMMARY: boom\ntrailing\n".toList)
          m.start
          ((2 + nextPosOf ("==1==ERROR: AddressSanitizer: CODE\nz\nSUMMARY: boom\ntrailing\n".toList) 0 5) + 13))) :=
  ⟨by decide, by decide, by decide,
    C5_summary_line_end ("==1==ERROR: AddressSanitizer: CODE\nz\nSUMMARY: boom\ntrailing\n".toList)
      ⟨"CODE".toList, "z".toList, 0, "==1==ERROR: AddressSanitizer: CODE\nz\nSUMMARY: boom".toList⟩
      0 5 2 13 (by decide)
      ⟨⟨0, 36, [(5, 35, 36), (4, 30, 34), (2, 0, 5)]⟩, by decide, by decide⟩
      (by decide) (by decide) (by decide)⟩

/-- C6 (counterexample): after the skip, neither a further marker occurrence
nor `SUMMARY: ` exists, yet the body does NOT consume the remaining text:
the trailing `"leftover junk"` is dropped (the body ends at the skip
position, not at the right-trimmed end of input). -/
theorem C6_counterexample :
    substrFind
      (("==1==ERROR: AddressSanitizer: CODE\nleftover junk".toList).drop
        (nextPosOf ("==1==ERROR: AddressSanitizer: CODE\nleftover junk".toList) 0 5))
      ("==1==".toList) = none ∧
    substrFind
      (("==1==ERROR: AddressSanitizer: CODE\nleftover junk".toList).drop
        (nextPosOf ("==1==ERROR: AddressSanitizer: CODE\nleftover junk".toList) 0 5))
      summaryTok = none ∧
    asan_post_process ("==1==ERROR: AddressSanitizer: CODE\nleftover junk".toList) =
      .ok (some ⟨"CODE".toList, "leftover".toList, 0,
        "==1==ERROR: AddressSanitizer: CODE".toList⟩) ∧
    "==1==ERROR: AddressSanitizer: CODE".toList ≠
      trimEnd ("==1==ERROR: AddressSanitizer: CODE\nleftover junk".toList) :=
  ⟨by decide, by decide, by decide, by decide⟩

/-- C6 (witness): a truncated report where the skip covers only the headline
line; the amended theorem applies: the body ends at the skip position and
the first frame is 0. -/
theorem C6_witness :
    substrFind
      (("==1==ERROR: AddressSanitizer: CODE\nz\nno end here".toList).drop
        (nextPosOf ("==1==ERROR: AddressSanitizer: CODE\nz\nno end here".toList) 0 5))
      (strSlice ("==1==ERROR: AddressSanitizer: CODE\nz\nno end here".toList) 0 5) = none ∧
    substrFind
      (("==1==ERROR: AddressSanitizer: CODE\nz\nno end here".toList).drop
        (nextPosOf ("==1==ERROR: AddressSanitizer: CODE\nz\nno end here".toList) 0 5))
      summaryTok = none ∧
    (∃ m, capturesLast ("==1==ERROR: AddressSanitizer: CODE\nz\nno end here".toList) = some m ∧
      (⟨"CODE".toList, "z".toList, 0,
        "==1==ERROR: AddressSanitizer: CODE".toList⟩ : AsanInfo).body =
        trimEnd (strSlice ("==1==ERROR: AddressSanitizer: CODE\nz\nno end here".toList) m.start
          (nextPosOf ("==1==ERROR: AddressSanitizer: CODE\nz\nno end here".toList) 0 5)) ∧
      (findFrom R_ASAN_FIRST_FRAME
          (strSlice ("==1==ERROR: AddressSanitizer: CODE\nz\nno end here".toList) m.start
            (nextPosOf ("==1==ERROR: AddressSanitizer: CODE\nz\nno end here".toList) 0 5)) 0 = none →
        (⟨"CODE".toList, "z".toList, 0,
          "==1==ERROR: AddressSanitizer: CODE".toList⟩ : AsanInfo).first_frame = 0)) :=
  ⟨by decide, by decide,
    C6_truncated_body_end ("==1==ERROR: AddressSanitizer: CODE\nz\nno end here".toList)
      ⟨"CODE".toList, "z".toList, 0, "==1==ERROR: AddressSanitizer: CODE".toList⟩
      0 5 (by decide)
      ⟨⟨0, 36, [(5, 35, 36), (4, 30, 34), (2, 0, 5)]⟩, by decide, by decide⟩
      (by decide) (by decide)⟩

/-- C7 (counterexample): this report's body contains the parseable frame
marker `#0 0x0`, whose value is 0 — so `first_frame = 0` does NOT imply the
absence of a parseable `#0 0x<hex>` marker: the claimed "exactly when" fails
at this input. -/
theorem C7_counterexample :
    asan_post_process ("==1==ERROR: AddressSanitizer: CODE\nz\n #0 0x0\n==1==A\n".toList) =
      .ok (some ⟨"CODE".toList, "z".toList, 0,
        "==1==ERROR: AddressSanitizer: CODE\nz\n #0 0x0\n==1==".toList⟩) ∧
    findFrom R_ASAN_FIRST_FRAME
      ("==1==ERROR: AddressSanitizer: CODE\nz\n #0 0x0\n==1==".toList) 0 =
      some ⟨38, 44, [(1, 41, 44)]⟩ ∧
    hexU64 ((strSlice "==1==ERROR: AddressSanitizer: CODE\nz\n #0 0x0\n==1==".toList 41 44).drop 2) =
      some 0 :=
  ⟨by decide, by decide, by decide⟩

/-- C7 (witness): on a report with frame `#0 0x1f` the amended theorem
applies, and indeed `first_frame = 31`. -/
theorem C7_witness :
    asan_post_process ("==1==ERROR: AddressSanitizer: CODE\nz\n #0 0x1f\n==1==A\n".toList) =
      .ok (some ⟨"CODE".toList, "z".toList, 31,
        "==1==ERROR: AddressSanitizer: CODE\nz\n #0 0x1f\n==1==".toList⟩) ∧
    (∃ b, (⟨"CODE".toList, "z".toList, 31,
        "==1==ERROR: AddressSanitizer: CODE\nz\n #0 0x1f\n==1==".toList⟩ : AsanInfo).body =
        trimEnd b ∧
      ((findFrom R_ASAN_FIRST_FRAME b 0 = none ∧
        (⟨"CODE".toList, "z".toList, 31,
          "==1==ERROR: AddressSanitizer: CODE\nz\n #0 0x1f\n==1==".toList⟩ : AsanInfo).first_frame = 0) ∨
       (∃ fm fs fe, findFrom R_ASAN_FIRST_FRAME b 0 = some fm ∧
         capsLookup 1 fm.caps = some (fs, fe) ∧
         hexU64 ((strSlice b fs fe).drop 2) =
           some (⟨"CODE".toList, "z".toList, 31,
             "==1==ERROR: AddressSanitizer: CODE\nz\n #0 0x1f\n==1==".toList⟩ : AsanInfo).first_frame))) :=
  ⟨by decide,
    C7_first_frame_value ("==1==ERROR: AddressSanitizer: CODE\nz\n #0 0x1f\n==1==A\n".toList)
      ⟨"CODE".toList, "z".toList, 31,
        "==1==ERROR: AddressSanitizer: CODE\nz\n #0 0x1f\n==1==".toList⟩
      (by decide)⟩

/-- C8 (witness): a SEGV report whose line after the headline begins with an
operation-class token (`READ`): the token is captured (group 5 spans
`[40, 44)`) yet the produced operation is empty. -/
theorem C8_witness :
    asan_post_process ("==1==ERROR: AddressSanitizer: SEGV blah\nREAD stuff\n==1==A\n".toList) =
      .ok (some ⟨"SEGV".toList, [], 0,
        "==1==ERROR: AddressSanitizer: SEGV blah\nREAD stuff\n==1==".toList⟩) ∧
    (∃ m, capturesLast ("==1==ERROR: AddressSanitizer: SEGV blah\nREAD stuff\n==1==A\n".toList) =
        some m ∧
      ((⟨"SEGV".toList, [], 0,
        "==1==ERROR: AddressSanitizer: SEGV blah\nREAD stuff\n==1==".toList⟩ : AsanInfo).stop_reason =
          segvTok →
        (⟨"SEGV".toList, [], 0,
          "==1==ERROR: AddressSanitizer: SEGV blah\nREAD stuff\n==1==".toList⟩ : AsanInfo).operation = []) ∧
      ((⟨"SEGV".toList, [], 0,
        "==1==ERROR: AddressSanitizer: SEGV blah\nREAD stuff\n==1==".toList⟩ : AsanInfo).stop_reason ≠
          segvTok →
        (⟨"SEGV".toList, [], 0,
          "==1==ERROR: AddressSanitizer: SEGV blah\nREAD stuff\n==1==".toList⟩ : AsanInfo).operation =
          (match capsLookup 5 m.caps with
            | some (os, oe) =>
              strSlice ("==1==ERROR: AddressSanitizer: SEGV blah\nREAD stuff\n==1==A\n".toList) os oe
            | none => []))) :=
  ⟨by decide,
    C8_segv_forces_empty_operation
      ("==1==ERROR: AddressSanitizer: SEGV blah\nREAD stuff\n==1==A\n".toList)
      ⟨"SEGV".toList, [], 0,
        "==1==ERROR: AddressSanitizer: SEGV blah\nREAD stuff\n==1==".toList⟩
      (by decide)⟩

/-- C9 (witness): a produced report with nonempty reason and body, the body
starting at the match offset. -/
theorem C9_witness :
    asan_post_process
      ("==7==ERROR: AddressSanitizer: heap-use-after-free on address\nREAD of size 4\n==7==ABORTING\n".toList) =
      .ok (some ⟨"heap-use-after-free".toList, "READ".toList, 0,
        "==7==ERROR: AddressSanitizer: heap-use-after-free on address\nREAD of size 4\n==7==".toList⟩) ∧
    ((⟨"heap-use-after-free".toList, "READ".toList, 0,
      "==7==ERROR: AddressSanitizer: heap-use-after-free on address\nREAD of size 4\n==7==".toList⟩ : AsanInfo).stop_reason ≠ [] ∧
     (⟨"heap-use-after-free".toList, "READ".toList, 0,
      "==7==ERROR: AddressSanitizer: heap-use-after-free on address\nREAD of size 4\n==7==".toList⟩ : AsanInfo).body ≠ [] ∧
     ∃ m, capturesLast
        ("==7==ERROR: AddressSanitizer: heap-use-after-free on address\nREAD of size 4\n==7==ABORTING\n".toList) =
        some m ∧
      ∃ t, ("==7==ERROR: AddressSanitizer: heap-use-after-free on address\nREAD of size 4\n==7==ABORTING\n".toList).drop
          m.start =
        (⟨"heap-use-after-free".toList, "READ".toList, 0,
          "==7==ERROR: AddressSanitizer: heap-use-after-free on address\nREAD of size 4\n==7==".toList⟩ : AsanInfo).body ++ t) :=
  ⟨by decide,
    C9_report_invariants
      ("==7==ERROR: AddressSanitizer: heap-use-after-free on address\nREAD of size 4\n==7==ABORTING\n".toList)
      ⟨"heap-use-after-free".toList, "READ".toList, 0,
        "==7==ERROR: AddressSanitizer: heap-use-after-free on address\nREAD of size 4\n==7==".toList⟩
      (by decide)⟩

/-- C10 (witness): a report with an `attempting` clause: the reason
`double-free` and operation `foo` are drawn from `[-_A-Za-z0-9]` only. -/
theorem C10_witness :
    asan_post_process
      ("==3==ERROR: AddressSanitizer: attempting double-free on x\nfoo\n==3==ABORTING\n".toList) =
      .ok (some ⟨"double-free".toList, "foo".toList, 0,
        "==3==ERROR: AddressSanitizer: attempting double-free on x\nfoo\n==3==".toList⟩) ∧
    ((∀ ch ∈ (⟨"double-free".toList, "foo".toList, 0,
        "==3==ERROR: AddressSanitizer: attempting double-free on x\nfoo\n==3==".toList⟩ : AsanInfo).stop_reason,
        wordC ch = true) ∧
     ((⟨"double-free".toList, "foo".toList, 0,
        "==3==ERROR: AddressSanitizer: attempting double-free on x\nfoo\n==3==".toList⟩ : AsanInfo).operation = [] ∨
      ∀ ch ∈ (⟨"double-free".toList, "foo".toList, 0,
        "==3==ERROR: AddressSanitizer: attempting double-free on x\nfoo\n==3==".toList⟩ : AsanInfo).operation,
        wordC ch = true)) :=
  ⟨by decide,
    C10_field_character_classes
      ("==3==ERROR: AddressSanitizer: attempting double-free on x\nfoo\n==3==ABORTING\n".toList)
      ⟨"double-free".toList, "foo".toList, 0,
        "==3==ERROR: AddressSanitizer: attempting double-free on x\nfoo\n==3==".toList⟩
      (by decide)⟩
